import Mathlib

/-!
Verification of the libumi core (Go) against its natural-language
specification.

The repository ships several revisions of the same package side by side.
Byte buffers are modelled as `List Nat` (each entry a byte value), machine
integers as `Nat` with explicit masking where the Go code truncates, Go
`error` results as `Option Err` (`none` = nil error), and Go runtime panics
(out-of-range indexing) as the `none` of an outer `Option` where a claim
depends on them.  SHA-256 and Ed25519 are external crypto primitives, not
code of this repository; every definition that needs them takes them as
explicit function arguments.
-/

/-- Error kinds of the library (`errors.New` values in the Go source). -/
inductive Err where
  | invalidLength
  | invalidVersion
  | invalidSender
  | invalidRecipient
  | invalidPfx
  | invalidProfitPercent
  | invalidFeePercent
  | invalidName
  | invalidValue
  | invalidSignature
  | invalidPrevHash
  | invalidMerkle
  | invalidTx
  | nonUniqueTx
  | invalidAddress
  deriving DecidableEq, Repr

/-! ## Byte-buffer primitives

Go slice reads `b[i]` are modelled with `List.getD` (all reads performed by
the claims are in range), a single byte store with `List.set`, and
`copy(dst[x:y], src)` with `writeBytes` on `src.take (y - x)`. -/

/-- Write the bytes of `src` into `t` starting at offset `off`
(models Go `copy` into a window that starts at `off`; the caller caps
`src` at the window length). -/
def writeBytes : List Nat → Nat → List Nat → List Nat
  | t, _, [] => t
  | t, off, x :: xs => writeBytes (t.set off x) (off + 1) xs

/-- The sub-buffer `t[off : off+len]` (models a Go slice expression). -/
def sliceAt (t : List Nat) (off len : Nat) : List Nat :=
  (t.drop off).take len

/-- Big-endian 16-bit read, `binary.BigEndian.Uint16(t[i:i+2])`. -/
def readBE2 (t : List Nat) (i : Nat) : Nat :=
  256 * t.getD i 0 + t.getD (i + 1) 0

/-- Big-endian 64-bit read, `binary.BigEndian.Uint64(t[i:i+8])`. -/
def readBE8 (t : List Nat) (i : Nat) : Nat :=
  ((((((t.getD i 0 * 256 + t.getD (i + 1) 0) * 256 + t.getD (i + 2) 0) * 256
    + t.getD (i + 3) 0) * 256 + t.getD (i + 4) 0) * 256 + t.getD (i + 5) 0) * 256
    + t.getD (i + 6) 0) * 256 + t.getD (i + 7) 0

/-- The two bytes written by `binary.BigEndian.PutUint16`. -/
def be2Bytes (n : Nat) : List Nat :=
  [(n >>> 8) % 256, n % 256]

/-- The eight bytes written by `binary.BigEndian.PutUint64`. -/
def be8Bytes (n : Nat) : List Nat :=
  [(n >>> 56) % 256, (n >>> 48) % 256, (n >>> 40) % 256, (n >>> 32) % 256,
   (n >>> 24) % 256, (n >>> 16) % 256, (n >>> 8) % 256, n % 256]

theorem length_writeBytes (src : List Nat) :
    ∀ (t : List Nat) (off : Nat), (writeBytes t off src).length = t.length := by
  induction src with
  | nil => intro t off; rfl
  | cons x xs ih => intro t off; rw [writeBytes, ih, List.length_set]

theorem getElem?_writeBytes_out (src : List Nat) :
    ∀ (t : List Nat) (off i : Nat), (i < off ∨ off + src.length ≤ i) →
      (writeBytes t off src)[i]? = t[i]? := by
  induction src with
  | nil => intro t off i _; rfl
  | cons x xs ih =>
    intro t off i h
    simp only [List.length_cons] at h
    rw [writeBytes, ih _ _ _ (by omega), List.getElem?_set_ne (by omega)]

theorem getD_writeBytes_out (src : List Nat) (t : List Nat) (off i : Nat)
    (h : i < off ∨ off + src.length ≤ i) :
    (writeBytes t off src).getD i 0 = t.getD i 0 := by
  simp [List.getD_eq_getElem?_getD, getElem?_writeBytes_out src t off i h]

theorem getD_set_out (t : List Nat) (j v i : Nat) (h : i ≠ j) :
    (t.set j v).getD i 0 = t.getD i 0 := by
  simp [List.getD_eq_getElem?_getD, List.getElem?_set_ne (Ne.symm h)]

theorem sliceAt_ext (t t' : List Nat) (off len : Nat)
    (h : ∀ i, off ≤ i → i < off + len → t[i]? = t'[i]?) :
    sliceAt t off len = sliceAt t' off len := by
  apply List.ext_getElem?
  intro i
  rw [sliceAt, sliceAt, List.getElem?_take, List.getElem?_take]
  rcases Nat.lt_or_ge i len with hi | hi
  · rw [if_pos hi, if_pos hi, List.getElem?_drop, List.getElem?_drop]
    exact h _ (Nat.le_add_right _ _) (by omega)
  · rw [if_neg (by omega), if_neg (by omega)]

theorem sliceAt_writeBytes_out (src t : List Nat) (off o l : Nat)
    (h : off + src.length ≤ o ∨ o + l ≤ off) :
    sliceAt (writeBytes t off src) o l = sliceAt t o l := by
  apply sliceAt_ext
  intro i h1 h2
  exact getElem?_writeBytes_out src t off i (by omega)

theorem sliceAt_set_out (t : List Nat) (j v o l : Nat)
    (h : j < o ∨ o + l ≤ j) :
    sliceAt (t.set j v) o l = sliceAt t o l := by
  apply sliceAt_ext
  intro i h1 h2
  exact List.getElem?_set_ne (by omega)

/-! ## Address and transaction accessors

Byte layout per `transaction.go` and the address files: a transaction is a
150-byte buffer, an address a 34-byte buffer (2-byte big-endian version,
32-byte public key). -/

/-- Go constant `genesis` / `verGenesis` (version word of the "genesis"
sentinel). -/
def genesisVer : Nat := 0

/-- Go constant `umi` / `verUmi` (version word of the "umi" prefix). -/
def umiVer : Nat := 21929

/-- The bytes of the string "genesis". -/
def genesisPfxBytes : List Nat := [103, 101, 110, 101, 115, 105, 115]

/-- The bytes of the string "umi". -/
def umiPfxBytes : List Nat := [117, 109, 105]

/-- Go constant `prefixAlphabet = " abcdefghijklmnopqrstuvwxyz"`. -/
def pfxAlphabet : List Nat :=
  [32, 97, 98, 99, 100, 101, 102, 103, 104, 105, 106, 107, 108, 109, 110,
   111, 112, 113, 114, 115, 116, 117, 118, 119, 120, 121, 122]

/-- Byte subtraction of 96, wrapping like Go `byte` arithmetic. -/
def sub96 (c : Nat) : Nat := (c + 160) % 256

/-- Go `versionToPrefix(a, b)` (identical to `addressVersionToPrefix`):
turn the two version bytes into a 3-letter prefix string, or "genesis" for
the all-zero version. -/
def versionToPfx (a b : Nat) : List Nat :=
  if a = 0 ∧ b = 0 then genesisPfxBytes
  else [((a >>> 2) &&& 31) + 96, (((a &&& 3) <<< 3) ||| (b >>> 5)) + 96, (b &&& 31) + 96]

/-- Go `prefixToVersion(s)` (identical to `prefixToAddressVersion`): pack a
prefix string into the two version bytes; "genesis" maps to (0, 0).
Go indexes `s[0] s[1] s[2]` (panicking on shorter input); out-of-range
reads are modelled as 0. -/
def pfxToVersion (s : List Nat) : Nat × Nat :=
  if s = genesisPfxBytes then (0, 0)
  else (((sub96 (s.getD 0 0) <<< 2) % 256) ||| (sub96 (s.getD 1 0) >>> 3),
        ((sub96 (s.getD 1 0) <<< 5) % 256) ||| sub96 (s.getD 2 0))

/-- Go `Address.Version()`: big-endian 16-bit word at offset 0. -/
def addrVersion (a : List Nat) : Nat := readBE2 a 0

/-- Go `Address.PublicKey()`: bytes 2..34. -/
def addrPublicKey (a : List Nat) : List Nat := sliceAt a 2 32

/-- Go `NewAddress()` of the bech32 revision: 34 zero bytes, then
`SetPrefix("umi")` writes the version bytes 85, 169. -/
def NewAddress : List Nat :=
  let p := pfxToVersion umiPfxBytes
  ((List.replicate 34 0).set 0 p.1).set 1 p.2

/-- Go `Transaction.Version()`: byte 0. -/
def txVersion (t : List Nat) : Nat := t.getD 0 0

/-- Go `Transaction.Sender()`: bytes 1..35. -/
def txSender (t : List Nat) : List Nat := sliceAt t 1 34

/-- Go `Transaction.Recipient()`: bytes 35..69. -/
def txRecipient (t : List Nat) : List Nat := sliceAt t 35 34

/-- Go `Transaction.Value()`: big-endian 64-bit word at 69..77. -/
def txValue (t : List Nat) : Nat := readBE8 t 69

/-- Go `Transaction.Prefix()`: the structure prefix decoded from bytes
35..37. -/
def txPfx (t : List Nat) : List Nat := versionToPfx (t.getD 35 0) (t.getD 36 0)

/-- Go `Transaction.ProfitPercent()`: big-endian 16-bit word at 37..39. -/
def txProfitPercent (t : List Nat) : Nat := readBE2 t 37

/-- Go `Transaction.FeePercent()`: big-endian 16-bit word at 39..41. -/
def txFeePercent (t : List Nat) : Nat := readBE2 t 39

/-- Go `Transaction.Name()`: `t[42 : 42+t[41]]`. -/
def txName (t : List Nat) : List Nat := sliceAt t 42 (t.getD 41 0)

/-- Go `Transaction.Signature()`: bytes 85..149. -/
def txSignature (t : List Nat) : List Nat := sliceAt t 85 64

/-- Go `Transaction.SetVersion(n)`: `t[0] = n`. -/
def txSetVersion (t : List Nat) (n : Nat) : List Nat := t.set 0 n

/-- Go `Transaction.SetSender(a)`: `copy(t[1:35], a)`. -/
def txSetSender (t : List Nat) (a : List Nat) : List Nat := writeBytes t 1 (a.take 34)

/-- Go `Transaction.SetRecipient(a)`: `copy(t[35:69], a)`. -/
def txSetRecipient (t : List Nat) (a : List Nat) : List Nat := writeBytes t 35 (a.take 34)

/-- Go `Transaction.SetValue(n)`: `binary.BigEndian.PutUint64(t[69:77], n)`. -/
def txSetValue (t : List Nat) (n : Nat) : List Nat := writeBytes t 69 (be8Bytes n)

/-- Go `Transaction.SetPrefix(s)`: `t[35], t[36] = prefixToVersion(s)`. -/
def txSetPfx (t : List Nat) (s : List Nat) : List Nat :=
  let p := pfxToVersion s
  (t.set 35 p.1).set 36 p.2

/-- Go `Transaction.SetProfitPercent(n)`: big-endian write at 37..39. -/
def txSetProfitPercent (t : List Nat) (n : Nat) : List Nat := writeBytes t 37 (be2Bytes n)

/-- Go `Transaction.SetFeePercent(n)`: big-endian write at 39..41. -/
def txSetFeePercent (t : List Nat) (n : Nat) : List Nat := writeBytes t 39 (be2Bytes n)

/-- Go `Transaction.SetName(s)`: `t[41] = uint8(len(s)); copy(t[42:77], s)`. -/
def txSetName (t : List Nat) (s : List Nat) : List Nat :=
  writeBytes (t.set 41 (s.length % 256)) 42 (s.take 35)

/-! ## UTF-8 validity (Go `unicode/utf8.Valid`) -/

/-- Is `c` a UTF-8 continuation byte (0x80..0xBF)? -/
def utf8Cont (c : Nat) : Bool := decide (128 ≤ c ∧ c ≤ 191)

/-- Classify a UTF-8 leading byte: number of continuation bytes and the
admissible range of the first continuation byte; `none` for an invalid
leading byte. -/
def utf8First (c : Nat) : Option (Nat × Nat × Nat) :=
  if c < 128 then some (0, 0, 0)
  else if 194 ≤ c ∧ c ≤ 223 then some (1, 128, 191)
  else if c = 224 then some (2, 160, 191)
  else if 225 ≤ c ∧ c ≤ 236 then some (2, 128, 191)
  else if c = 237 then some (2, 128, 159)
  else if 238 ≤ c ∧ c ≤ 239 then some (2, 128, 191)
  else if c = 240 then some (3, 144, 191)
  else if 241 ≤ c ∧ c ≤ 243 then some (3, 128, 191)
  else if c = 244 then some (3, 128, 143)
  else none

/-- Go `utf8.Valid(b)`: RFC 3629 UTF-8 acceptance. -/
def utf8Valid : List Nat → Bool
  | [] => true
  | c :: r =>
    match utf8First c with
    | none => false
    | some (0, _, _) => utf8Valid r
    | some (1, lo, hi) =>
      match r with
      | c1 :: r1 => decide (lo ≤ c1 ∧ c1 ≤ hi) && utf8Valid r1
      | [] => false
    | some (2, lo, hi) =>
      match r with
      | c1 :: c2 :: r2 => decide (lo ≤ c1 ∧ c1 ≤ hi) && utf8Cont c2 && utf8Valid r2
      | _ => false
    | some (_ + 3, lo, hi) =>
      match r with
      | c1 :: c2 :: c3 :: r3 =>
        decide (lo ≤ c1 ∧ c1 ≤ hi) && utf8Cont c2 && utf8Cont c3 && utf8Valid r3
      | _ => false

/-! ## Predicate combinators (file of `assert`, `runAsserts`, ...; the live
revision whose address-version and block-hash predicates are not stubbed) -/

/-- Go `runAsserts` / `assert`: run predicates in order, return the first
error. -/
def runAsserts (b : List Nat) : List (List Nat → Option Err) → Option Err
  | [] => none
  | f :: fs =>
    match f b with
    | some e => some e
    | none => runAsserts b fs

/-- Go `ifVersionIsGenesis`: run the group only when `b[0] == Genesis`. -/
def ifVersionIsGenesis (asserts : List (List Nat → Option Err)) (b : List Nat) : Option Err :=
  if b.getD 0 0 = 0 then runAsserts b asserts else none

/-- Go `ifVersionIsBasic`: run the group only when `b[0] == Basic`. -/
def ifVersionIsBasic (asserts : List (List Nat → Option Err)) (b : List Nat) : Option Err :=
  if b.getD 0 0 = 1 then runAsserts b asserts else none

/-- Go `ifVersionIsCreateOrUpdateStruct`: run the group only when
`b[0]` is CreateStructure (2) or UpdateStructure (3). -/
def ifVersionIsCreateOrUpdateStruct (asserts : List (List Nat → Option Err)) (b : List Nat) :
    Option Err :=
  if b.getD 0 0 = 2 ∨ b.getD 0 0 = 3 then runAsserts b asserts else none

/-- Go `ifVersionIsUpdateAddress`: run the group only when `b[0]` is one of
UpdateProfitAddress (4), UpdateFeeAddress (5), CreateTransitAddress (6),
DeleteTransitAddress (7). -/
def ifVersionIsUpdateAddress (asserts : List (List Nat → Option Err)) (b : List Nat) :
    Option Err :=
  if b.getD 0 0 = 4 ∨ b.getD 0 0 = 5 ∨ b.getD 0 0 = 6 ∨ b.getD 0 0 = 7 then
    runAsserts b asserts
  else none

/-- Go `lengthIs(l)`: `b == nil || len(b) != l` yields `ErrInvalidLength`
(a nil slice has length 0, so the nil test is subsumed). -/
def lengthIs (l : Nat) (b : List Nat) : Option Err :=
  if b.length ≠ l then some .invalidLength else none

/-- Go `adrVersionIsValid(v)` of the live revision: the genesis sentinel 0
is valid; otherwise each of the three 5-bit character fields must lie in
`chrMin = 1 .. chrMax = 27` (the `for i := 0; i < 3` loop is expressed with
`List.range 3`). -/
def adrVersionIsValid (v : Nat) : Option Err :=
  if v = genesisVer then none
  else if (List.range 3).any (fun i =>
      decide ((v >>> (i * 5)) &&& 31 < 1) || decide ((v >>> (i * 5)) &&& 31 > 27)) then
    some .invalidPfx
  else none

/-- Go `txVersionIsValid(v)`: `v > DeleteTransitAddress (7)` is invalid. -/
def txVersionIsValid (v : Nat) : Option Err :=
  if v > 7 then some .invalidVersion else none

/-- Go `blkVersionIsValid(v)`: `v > Basic (1)` is invalid. -/
def blkVersionIsValid (v : Nat) : Option Err :=
  if v > 1 then some .invalidVersion else none

/-- Go `versionIsValid(b)`: dispatch on the buffer length
(`AddressLength = 34`, `TxLength = 150`, anything else is a block). -/
def versionIsValid (b : List Nat) : Option Err :=
  if b.length = 34 then adrVersionIsValid (addrVersion b)
  else if b.length = 150 then txVersionIsValid (txVersion b)
  else blkVersionIsValid (b.getD 0 0)

/-- Go `signatureIsValid(b)`: Ed25519 verification over the transaction
ranges, or the block ranges when the buffer is not 150 bytes long.
`V pub msg sig` is the external `ed25519.Verify`. -/
def signatureIsValid (V : List Nat → List Nat → List Nat → Bool) (b : List Nat) : Option Err :=
  let pms :=
    if b.length ≠ 150 then (sliceAt b 71 32, sliceAt b 0 103, sliceAt b 103 64)
    else (sliceAt b 3 32, sliceAt b 0 85, sliceAt b 85 64)
  if V pms.1 pms.2.1 pms.2.2 then none else some .invalidSignature

/-- Go `senderPrefixIs(v)`. -/
def senderPfxIs (v : Nat) (b : List Nat) : Option Err :=
  if addrVersion (txSender b) ≠ v then some .invalidSender else none

/-- Go `senderPrefixNot(v)`. -/
def senderPfxNot (v : Nat) (b : List Nat) : Option Err :=
  if addrVersion (txSender b) = v then some .invalidSender else none

/-- Go `senderPrefixIsValid`. -/
def senderPfxIsValid (b : List Nat) : Option Err :=
  match adrVersionIsValid (addrVersion (txSender b)) with
  | some _ => some .invalidSender
  | none => none

/-- Go `senderRecipientNotEqual`: `bytes.Equal(recipient, sender)` is an
error. -/
def senderRecipientNotEqual (b : List Nat) : Option Err :=
  if txRecipient b = txSender b then some .invalidRecipient else none

/-- Go `recipientPrefixIs(v)`. -/
def recipientPfxIs (v : Nat) (b : List Nat) : Option Err :=
  if addrVersion (txRecipient b) ≠ v then some .invalidRecipient else none

/-- Go `recipientPrefixNot(vs...)`. -/
def recipientPfxNot (vs : List Nat) (b : List Nat) : Option Err :=
  if addrVersion (txRecipient b) ∈ vs then some .invalidRecipient else none

/-- Go `recipientPrefixIsValid`. -/
def recipientPfxIsValid (b : List Nat) : Option Err :=
  match adrVersionIsValid (addrVersion (txRecipient b)) with
  | some _ => some .invalidRecipient
  | none => none

/-- Go `structPrefixNot(vs...)`: like `recipientPrefixNot` but raising
`ErrInvalidPrefix`. -/
def structPfxNot (vs : List Nat) (b : List Nat) : Option Err :=
  if addrVersion (txRecipient b) ∈ vs then some .invalidPfx else none

/-- Go `structPrefixIsValid`: like `recipientPrefixIsValid` but raising
`ErrInvalidPrefix`. -/
def structPfxIsValid (b : List Nat) : Option Err :=
  match adrVersionIsValid (addrVersion (txRecipient b)) with
  | some _ => some .invalidPfx
  | none => none

/-- Go `nameIsValidUtf8` (same checks as `nameIsValid`): `b[41] <= 35` and
`b[42 : 42+b[41]]` valid UTF-8. -/
def nameIsValidUtf8 (b : List Nat) : Option Err :=
  if b.getD 41 0 > 35 then some .invalidName
  else if ¬ utf8Valid (sliceAt b 42 (b.getD 41 0)) then some .invalidName
  else none

/-- Go `feePercentBetween(min, max)`. -/
def feePercentBetween (lo hi : Nat) (b : List Nat) : Option Err :=
  if txFeePercent b < lo ∨ txFeePercent b > hi then some .invalidFeePercent else none

/-- Go `profitPercentBetween(min, max)`. -/
def profitPercentBetween (lo hi : Nat) (b : List Nat) : Option Err :=
  if txProfitPercent b < lo ∨ txProfitPercent b > hi then some .invalidProfitPercent else none

namespace TxA

/-- Go `VerifyTransaction` of `transaction.go` (combinator revision):
the assert chain exactly as listed at `transaction.go:143-178`, including
`profitPercentBetween(0, 5_00)` and `feePercentBetween(1_00, 20_00)`. -/
def VerifyTransaction (V : List Nat → List Nat → List Nat → Bool) (t : List Nat) : Option Err :=
  runAsserts t
    [lengthIs 150,
     versionIsValid,
     ifVersionIsGenesis
       [senderPfxIs genesisVer,
        recipientPfxIs umiVer],
     ifVersionIsBasic
       [senderPfxIsValid,
        recipientPfxIsValid,
        senderRecipientNotEqual,
        senderPfxNot genesisVer,
        recipientPfxNot [genesisVer]],
     ifVersionIsCreateOrUpdateStruct
       [senderPfxIs umiVer,
        structPfxNot [genesisVer, umiVer],
        structPfxIsValid,
        profitPercentBetween 0 500,
        feePercentBetween 100 2000,
        nameIsValidUtf8],
     ifVersionIsUpdateAddress
       [senderPfxIs umiVer,
        recipientPfxNot [genesisVer, umiVer],
        recipientPfxIsValid],
     signatureIsValid V]

end TxA

namespace TxB

/-! Embedding of `transaction_verify.go` (list-of-functions revision).
Note that this revision has no length predicate at all. -/

/-- Go `verifyTxVersion`: `t.Version() > DeleteStructureTransitAddress (7)`. -/
def verifyTxVersion (t : List Nat) : Option Err :=
  if txVersion t > 7 then some .invalidVersion else none

/-- Go `verifyTxGenesisSenderAndRecipient`. -/
def verifyTxGenesisSenderAndRecipient (t : List Nat) : Option Err :=
  if txVersion t ≠ 0 then none
  else if addrVersion (txSender t) ≠ genesisVer then some .invalidSender
  else if addrVersion (txRecipient t) ≠ umiVer then some .invalidRecipient
  else none

/-- Go `verifyTxBasicSenderAndRecipient`. -/
def verifyTxBasicSenderAndRecipient (t : List Nat) : Option Err :=
  if txVersion t ≠ 1 then none
  else if txSender t = txRecipient t then some .invalidRecipient
  else if addrVersion (txSender t) = genesisVer then some .invalidSender
  else if addrVersion (txRecipient t) = genesisVer then some .invalidRecipient
  else none

/-- Go `verifyTxStructureSender`: for versions >= CreateStructure the sender
version must be "umi". -/
def verifyTxStructureSender (t : List Nat) : Option Err :=
  if txVersion t < 2 then none
  else if addrVersion (txSender t) ≠ umiVer then some .invalidSender
  else none

/-- Go `verifyTxStructurePrefix`: for versions >= CreateStructure the
structure prefix must not be "umi" or "genesis" and all its characters must
occur in `prefixAlphabet`. -/
def verifyTxStructurePfx (t : List Nat) : Option Err :=
  if txVersion t < 2 then none
  else if txPfx t = umiPfxBytes ∨ txPfx t = genesisPfxBytes then some .invalidPfx
  else if (txPfx t).any (fun c => decide (c ∉ pfxAlphabet)) then some .invalidPfx
  else none

/-- Go `verifyTxStructureName`: only for CreateStructure/UpdateStructure;
`t[41] <= maxNameLength (35)` and valid UTF-8 name bytes. -/
def verifyTxStructureName (t : List Nat) : Option Err :=
  if txVersion t ≠ 2 ∧ txVersion t ≠ 3 then none
  else if t.getD 41 0 > 35 then some .invalidName
  else if ¬ utf8Valid (sliceAt t 42 (t.getD 41 0)) then some .invalidName
  else none

/-- Go `verifyTxStructureProfitPercent`: only for
CreateStructure/UpdateStructure; profit percent in
`minProfitPercent (100) .. maxProfitPercent (500)`. -/
def verifyTxStructureProfitPercent (t : List Nat) : Option Err :=
  if txVersion t ≠ 2 ∧ txVersion t ≠ 3 then none
  else if txProfitPercent t < 100 ∨ txProfitPercent t > 500 then some .invalidProfitPercent
  else none

/-- Go `verifyTxStructureFeePercent`: only for
CreateStructure/UpdateStructure; fee percent at most `maxFeePercent (2000)`. -/
def verifyTxStructureFeePercent (t : List Nat) : Option Err :=
  if txVersion t ≠ 2 ∧ txVersion t ≠ 3 then none
  else if txFeePercent t > 2000 then some .invalidFeePercent
  else none

/-- Go `verifyTxValue`: value at most `maxSafeValue (2^53 - 1)`. -/
def verifyTxValue (t : List Nat) : Option Err :=
  if txValue t > 9007199254740991 then some .invalidValue else none

/-- Go `verifyTxSignature`. -/
def verifyTxSignature (V : List Nat → List Nat → List Nat → Bool) (t : List Nat) : Option Err :=
  if V (addrPublicKey (txSender t)) (sliceAt t 0 85) (txSignature t) then none
  else some .invalidSignature

/-- Go `VerifyTransaction` of `transaction_verify.go`: the ten predicates in
source order, stopping at the first error. -/
def VerifyTransaction (V : List Nat → List Nat → List Nat → Bool) (t : List Nat) : Option Err :=
  runAsserts t
    [verifyTxVersion,
     verifyTxValue,
     verifyTxBasicSenderAndRecipient,
     verifyTxGenesisSenderAndRecipient,
     verifyTxStructureSender,
     verifyTxStructurePfx,
     verifyTxStructureName,
     verifyTxStructureProfitPercent,
     verifyTxStructureFeePercent,
     verifyTxSignature V]

end TxB

/-! ## Frame lemmas for the multi-byte readers -/

theorem readBE2_writeBytes_out (src t : List Nat) (off i : Nat)
    (h : off + src.length ≤ i ∨ i + 2 ≤ off) :
    readBE2 (writeBytes t off src) i = readBE2 t i := by
  unfold readBE2
  rw [getD_writeBytes_out _ _ _ _ (by omega), getD_writeBytes_out _ _ _ _ (by omega)]

theorem readBE2_set_out (t : List Nat) (j v i : Nat) (h : j < i ∨ i + 2 ≤ j) :
    readBE2 (t.set j v) i = readBE2 t i := by
  unfold readBE2
  rw [getD_set_out _ _ _ _ (by omega), getD_set_out _ _ _ _ (by omega)]

theorem readBE8_writeBytes_out (src t : List Nat) (off i : Nat)
    (h : off + src.length ≤ i ∨ i + 8 ≤ off) :
    readBE8 (writeBytes t off src) i = readBE8 t i := by
  unfold readBE8
  rw [getD_writeBytes_out _ _ _ _ (by omega), getD_writeBytes_out _ _ _ _ (by omega),
    getD_writeBytes_out _ _ _ _ (by omega), getD_writeBytes_out _ _ _ _ (by omega),
    getD_writeBytes_out _ _ _ _ (by omega), getD_writeBytes_out _ _ _ _ (by omega),
    getD_writeBytes_out _ _ _ _ (by omega), getD_writeBytes_out _ _ _ _ (by omega)]

theorem readBE8_set_out (t : List Nat) (j v i : Nat) (h : j < i ∨ i + 8 ≤ j) :
    readBE8 (t.set j v) i = readBE8 t i := by
  unfold readBE8
  rw [getD_set_out _ _ _ _ (by omega), getD_set_out _ _ _ _ (by omega),
    getD_set_out _ _ _ _ (by omega), getD_set_out _ _ _ _ (by omega),
    getD_set_out _ _ _ _ (by omega), getD_set_out _ _ _ _ (by omega),
    getD_set_out _ _ _ _ (by omega), getD_set_out _ _ _ _ (by omega)]

theorem length_be2Bytes (n : Nat) : (be2Bytes n).length = 2 := rfl

theorem length_be8Bytes (n : Nat) : (be8Bytes n).length = 8 := rfl

/-- The 150-byte all-zero transaction buffer. -/
def zeros150 : List Nat := List.replicate 150 0

/-- C3 counterexample inputs: a 28-byte name whose last byte is nonzero
(its copy reaches byte 69, the first byte of the value field), and a
transaction whose name length byte is 35 (its name window reaches byte 76,
inside the value field). -/
def cexName28 : List Nat := List.replicate 27 97 ++ [1]

/-- A 150-byte transaction whose name-length byte `t[41]` is 35. -/
def cexNameLen35Tx : List Nat := zeros150.set 41 35

set_option maxRecDepth 40000 in
/-- C3 (counterexample): the claim's own example pairs fail on the code.
`SetName` with a 28-byte name overwrites byte 69 and changes `Value()`;
`SetPrefix` writes bytes 35-36, which lie inside `Recipient()`'s range
35..69; `SetValue` writes bytes 69..77, which lie inside the name window
when the name length byte is 35. -/
theorem c3_overlapping_setters_cex :
    txValue (txSetName zeros150 cexName28) ≠ txValue zeros150 ∧
    txRecipient (txSetPfx zeros150 umiPfxBytes) ≠ txRecipient zeros150 ∧
    txName (txSetValue cexNameLen35Tx 42) ≠ txName cexNameLen35Tx := by
  decide

theorem getD_txSetPfx_out (t s : List Nat) (i : Nat) (h : i ≠ 35 ∧ i ≠ 36) :
    (txSetPfx t s).getD i 0 = t.getD i 0 := by
  simp only [txSetPfx]
  rw [getD_set_out _ _ _ _ h.2, getD_set_out _ _ _ _ h.1]

theorem getD_txSetName_out (t s : List Nat) (i : Nat) (h : i < 41) :
    (txSetName t s).getD i 0 = t.getD i 0 := by
  simp only [txSetName]
  rw [getD_writeBytes_out _ _ _ _ (by omega), getD_set_out _ _ _ _ (by omega)]

/-- C3 (amended): a transaction setter leaves every getter of a field with
a disjoint byte range unchanged.  The pairs missing below are exactly the
deliberate overlays of the 150-byte layout: the structure fields
(prefix 35..37, profit 37..39, fee 39..41, name 41..77) share bytes with
the recipient field 35..69 and the value field 69..77, so those getters can
change. -/
theorem c3_field_independence_disjoint (t a s : List Nat) (n : Nat) :
    (txSender (txSetVersion t n) = txSender t ∧
     txRecipient (txSetVersion t n) = txRecipient t ∧
     txValue (txSetVersion t n) = txValue t ∧
     txPfx (txSetVersion t n) = txPfx t ∧
     txProfitPercent (txSetVersion t n) = txProfitPercent t ∧
     txFeePercent (txSetVersion t n) = txFeePercent t ∧
     txName (txSetVersion t n) = txName t) ∧
    (txVersion (txSetSender t a) = txVersion t ∧
     txRecipient (txSetSender t a) = txRecipient t ∧
     txValue (txSetSender t a) = txValue t ∧
     txPfx (txSetSender t a) = txPfx t ∧
     txProfitPercent (txSetSender t a) = txProfitPercent t ∧
     txFeePercent (txSetSender t a) = txFeePercent t ∧
     txName (txSetSender t a) = txName t) ∧
    (txVersion (txSetRecipient t a) = txVersion t ∧
     txSender (txSetRecipient t a) = txSender t ∧
     txValue (txSetRecipient t a) = txValue t) ∧
    (txVersion (txSetValue t n) = txVersion t ∧
     txSender (txSetValue t n) = txSender t ∧
     txRecipient (txSetValue t n) = txRecipient t ∧
     txPfx (txSetValue t n) = txPfx t ∧
     txProfitPercent (txSetValue t n) = txProfitPercent t ∧
     txFeePercent (txSetValue t n) = txFeePercent t) ∧
    (txVersion (txSetPfx t s) = txVersion t ∧
     txSender (txSetPfx t s) = txSender t ∧
     txValue (txSetPfx t s) = txValue t ∧
     txProfitPercent (txSetPfx t s) = txProfitPercent t ∧
     txFeePercent (txSetPfx t s) = txFeePercent t ∧
     txName (txSetPfx t s) = txName t) ∧
    (txVersion (txSetProfitPercent t n) = txVersion t ∧
     txSender (txSetProfitPercent t n) = txSender t ∧
     txValue (txSetProfitPercent t n) = txValue t ∧
     txPfx (txSetProfitPercent t n) = txPfx t ∧
     txFeePercent (txSetProfitPercent t n) = txFeePercent t ∧
     txName (txSetProfitPercent t n) = txName t) ∧
    (txVersion (txSetFeePercent t n) = txVersion t ∧
     txSender (txSetFeePercent t n) = txSender t ∧
     txValue (txSetFeePercent t n) = txValue t ∧
     txPfx (txSetFeePercent t n) = txPfx t ∧
     txProfitPercent (txSetFeePercent t n) = txProfitPercent t ∧
     txName (txSetFeePercent t n) = txName t) ∧
    (txVersion (txSetName t s) = txVersion t ∧
     txSender (txSetName t s) = txSender t ∧
     txPfx (txSetName t s) = txPfx t ∧
     txProfitPercent (txSetName t s) = txProfitPercent t ∧
     txFeePercent (txSetName t s) = txFeePercent t) := by
  have hA : (List.take 34 a).length ≤ 34 := List.length_take_le 34 a
  have hS : (List.take 35 s).length ≤ 35 := List.length_take_le 35 s
  refine ⟨⟨?_, ?_, ?_, ?_, ?_, ?_, ?_⟩, ⟨?_, ?_, ?_, ?_, ?_, ?_, ?_⟩, ⟨?_, ?_, ?_⟩,
    ⟨?_, ?_, ?_, ?_, ?_, ?_⟩, ⟨?_, ?_, ?_, ?_, ?_, ?_⟩, ⟨?_, ?_, ?_, ?_, ?_, ?_⟩,
    ⟨?_, ?_, ?_, ?_, ?_, ?_⟩, ⟨?_, ?_, ?_, ?_, ?_⟩⟩
  · exact sliceAt_set_out t 0 n 1 34 (by omega)
  · exact sliceAt_set_out t 0 n 35 34 (by omega)
  · exact readBE8_set_out t 0 n 69 (by omega)
  · simp only [txPfx, txSetVersion]
    rw [getD_set_out _ _ _ _ (by omega), getD_set_out _ _ _ _ (by omega)]
  · exact readBE2_set_out t 0 n 37 (by omega)
  · exact readBE2_set_out t 0 n 39 (by omega)
  · simp only [txName, txSetVersion]
    rw [getD_set_out _ _ _ _ (by omega), sliceAt_set_out _ _ _ _ _ (by omega)]
  · exact getD_writeBytes_out _ _ _ _ (by omega)
  · exact sliceAt_writeBytes_out _ _ _ _ _ (by omega)
  · exact readBE8_writeBytes_out _ _ _ _ (by omega)
  · simp only [txPfx, txSetSender]
    rw [getD_writeBytes_out _ _ _ _ (by omega), getD_writeBytes_out _ _ _ _ (by omega)]
  · exact readBE2_writeBytes_out _ _ _ _ (by omega)
  · exact readBE2_writeBytes_out _ _ _ _ (by omega)
  · simp only [txName, txSetSender]
    rw [getD_writeBytes_out _ _ _ _ (by omega), sliceAt_writeBytes_out _ _ _ _ _ (by omega)]
  · exact getD_writeBytes_out _ _ _ _ (by omega)
  · exact sliceAt_writeBytes_out _ _ _ _ _ (by omega)
  · exact readBE8_writeBytes_out _ _ _ _ (by omega)
  · exact getD_writeBytes_out _ _ _ _ (by omega)
  · exact sliceAt_writeBytes_out _ _ _ _ _ (by rw [length_be8Bytes]; omega)
  · exact sliceAt_writeBytes_out _ _ _ _ _ (by rw [length_be8Bytes]; omega)
  · simp only [txPfx, txSetValue]
    rw [getD_writeBytes_out _ _ _ _ (by omega), getD_writeBytes_out _ _ _ _ (by omega)]
  · exact readBE2_writeBytes_out _ _ _ _ (by omega)
  · exact readBE2_writeBytes_out _ _ _ _ (by omega)
  · exact getD_txSetPfx_out t s 0 (by omega)
  · simp only [txSender, txSetPfx]
    rw [sliceAt_set_out _ _ _ _ _ (by omega), sliceAt_set_out _ _ _ _ _ (by omega)]
  · simp only [txValue, txSetPfx]
    rw [readBE8_set_out _ _ _ _ (by omega), readBE8_set_out _ _ _ _ (by omega)]
  · simp only [txProfitPercent, txSetPfx]
    rw [readBE2_set_out _ _ _ _ (by omega), readBE2_set_out _ _ _ _ (by omega)]
  · simp only [txFeePercent, txSetPfx]
    rw [readBE2_set_out _ _ _ _ (by omega), readBE2_set_out _ _ _ _ (by omega)]
  · simp only [txName]
    rw [getD_txSetPfx_out t s 41 (by omega)]
    simp only [txSetPfx]
    rw [sliceAt_set_out _ _ _ _ _ (by omega), sliceAt_set_out _ _ _ _ _ (by omega)]
  · exact getD_writeBytes_out _ _ _ _ (by omega)
  · exact sliceAt_writeBytes_out _ _ _ _ _ (by omega)
  · exact readBE8_writeBytes_out _ _ _ _ (by rw [length_be2Bytes]; omega)
  · simp only [txPfx, txSetProfitPercent]
    rw [getD_writeBytes_out _ _ _ _ (by omega), getD_writeBytes_out _ _ _ _ (by omega)]
  · exact readBE2_writeBytes_out _ _ _ _ (by rw [length_be2Bytes]; omega)
  · simp only [txName, txSetProfitPercent]
    rw [getD_writeBytes_out _ _ _ _ (by rw [length_be2Bytes]; omega),
      sliceAt_writeBytes_out _ _ _ _ _ (by rw [length_be2Bytes]; omega)]
  · exact getD_writeBytes_out _ _ _ _ (by omega)
  · exact sliceAt_writeBytes_out _ _ _ _ _ (by omega)
  · exact readBE8_writeBytes_out _ _ _ _ (by rw [length_be2Bytes]; omega)
  · simp only [txPfx, txSetFeePercent]
    rw [getD_writeBytes_out _ _ _ _ (by omega), getD_writeBytes_out _ _ _ _ (by omega)]
  · exact readBE2_writeBytes_out _ _ _ _ (by omega)
  · simp only [txName, txSetFeePercent]
    rw [getD_writeBytes_out _ _ _ _ (by rw [length_be2Bytes]; omega),
      sliceAt_writeBytes_out _ _ _ _ _ (by rw [length_be2Bytes]; omega)]
  · exact getD_txSetName_out t s 0 (by omega)
  · simp only [txSender, txSetName]
    rw [sliceAt_writeBytes_out _ _ _ _ _ (by omega), sliceAt_set_out _ _ _ _ _ (by omega)]
  · simp only [txPfx]
    rw [getD_txSetName_out t s 35 (by omega), getD_txSetName_out t s 36 (by omega)]
  · simp only [txProfitPercent, txSetName]
    rw [readBE2_writeBytes_out _ _ _ _ (by omega), readBE2_set_out _ _ _ _ (by omega)]
  · simp only [txFeePercent, txSetName]
    rw [readBE2_writeBytes_out _ _ _ _ (by omega), readBE2_set_out _ _ _ _ (by omega)]

/-- A 150-byte CreateStructure transaction: version 2, sender version "umi"
(bytes 85, 169), structure prefix "aaa" (bytes 4, 33), profit percent 99,
fee percent 0, everything else zero — so every predicate before the percent
checks passes, profit 99 is outside [100, 500] and fee 0 is inside
[0, 2000]. -/
def cexStructTx : List Nat :=
  ((((((List.replicate 150 0).set 0 2).set 1 85).set 2 169).set 35 4).set 36 33).set 38 99

/-- A 200-byte all-zero buffer (wrong length for a transaction). -/
def zeros200 : List Nat := List.replicate 200 0

/-- Supporting fact: the combinator revision (`transaction.go`) does return
`ErrInvalidLength` for every buffer whose length is not 150, whatever the
signature oracle. -/
theorem txA_wrong_length (V : List Nat → List Nat → List Nat → Bool) (b : List Nat)
    (h : b.length ≠ 150) : TxA.VerifyTransaction V b = some Err.invalidLength := by
  simp [TxA.VerifyTransaction, runAsserts, lengthIs, h]

set_option maxRecDepth 40000 in
/-- C1 (code bug, evaluation at the failing input): on `cexStructTx`
(profit percent 99, fee percent 0) `transaction.go`'s `VerifyTransaction`
returns `ErrInvalidFeePercent` — its call sites swap the percent bounds
(`profitPercentBetween(0, 5_00)`, `feePercentBetween(1_00, 20_00)`) — while
the `transaction_verify.go` revision returns `ErrInvalidProfitPercent`
exactly as the claim demands. -/
theorem c1_percent_bounds_swapped :
    txProfitPercent cexStructTx = 99 ∧ txFeePercent cexStructTx = 0 ∧
    TxA.VerifyTransaction (fun _ _ _ => false) cexStructTx = some Err.invalidFeePercent ∧
    TxB.VerifyTransaction (fun _ _ _ => false) cexStructTx = some Err.invalidProfitPercent := by
  decide

set_option maxRecDepth 40000 in
/-- C5 (code bug, evaluation at the failing input): the
`transaction_verify.go` revision has no length predicate at all, so on a
200-byte all-zero buffer it returns `ErrInvalidRecipient` instead of
`ErrInvalidLength`; the combinator revision (`transaction.go`) checks the
length first and returns `ErrInvalidLength` for the same buffer and for the
empty (nil) one. -/
theorem c5_missing_length_check :
    TxB.VerifyTransaction (fun _ _ _ => false) zeros200 = some Err.invalidRecipient ∧
    TxA.VerifyTransaction (fun _ _ _ => false) zeros200 = some Err.invalidLength ∧
    TxA.VerifyTransaction (fun _ _ _ => false) [] = some Err.invalidLength := by
  decide

/-- C2 (counterexample): the live `adrVersionIsValid` accepts version 1083,
whose three 5-bit character fields are 27, 1, 1 — so acceptance is not
equivalent to "0 or all fields in 1..26" as claimed: the code's upper bound
is `chrMax = 27`. -/
theorem c2_adr_version_cex :
    adrVersionIsValid 1083 = none ∧ 1083 ≠ 0 ∧
    ¬ (∀ i, i < 3 → 1 ≤ (1083 >>> (i * 5)) &&& 31 ∧ (1083 >>> (i * 5)) &&& 31 ≤ 26) := by
  refine ⟨by decide, by decide, fun h => ?_⟩
  have h27 := h 0 (by decide)
  revert h27
  decide

/-- C2 (amended): for every 16-bit version word, the transaction verifier's
address-version predicate accepts exactly the genesis sentinel 0 and the
words whose three 5-bit character fields all lie in 1..27. -/
theorem c2_adr_version_amended (v : Nat) (hv : v < 65536) :
    adrVersionIsValid v = none ↔
      (v = 0 ∨ ∀ i, i < 3 → 1 ≤ (v >>> (i * 5)) &&& 31 ∧ (v >>> (i * 5)) &&& 31 ≤ 27) := by
  unfold adrVersionIsValid genesisVer
  by_cases h0 : v = 0
  · simp [h0]
  · rw [if_neg h0]
    by_cases hb : ((List.range 3).any (fun i =>
        decide ((v >>> (i * 5)) &&& 31 < 1) || decide ((v >>> (i * 5)) &&& 31 > 27)) : Bool)
    · rw [if_pos hb]
      simp only [List.any_eq_true, List.mem_range, Bool.or_eq_true, decide_eq_true_eq] at hb
      obtain ⟨i, hi, hcase⟩ := hb
      apply iff_of_false (by simp)
      rintro (h0' | hall)
      · exact h0 h0'
      · have := hall i hi; omega
    · rw [if_neg hb]
      simp only [List.any_eq_true, List.mem_range, Bool.or_eq_true, decide_eq_true_eq,
        not_exists, not_and, not_or] at hb
      refine iff_of_true rfl (Or.inr fun i hi => ?_)
      have := hb i hi
      omega

/-- C2 witness: the amended equivalence applied at the concrete version
word 1083. -/
theorem c2_adr_version_amended_witness :
    1083 < 65536 ∧
    (adrVersionIsValid 1083 = none ↔
      (1083 = 0 ∨ ∀ i, i < 3 → 1 ≤ (1083 >>> (i * 5)) &&& 31 ∧ (1083 >>> (i * 5)) &&& 31 ≤ 27)) :=
  ⟨by decide, c2_adr_version_amended 1083 (by decide)⟩

/-! ## Block accessors and the Merkle root (`CalculateMerkleRoot`)

The Merkle code takes the external SHA-256 as a function argument
`H : List Nat → List Nat`.  Array hashes `[32]byte` are modelled as byte
lists; the 64-byte scratch buffer `t` (two `copy`s of 32 bytes into a zero
buffer) is modelled by `to32`. -/

/-- Go `Block.TxCount()`: big-endian 16-bit word at 69..71. -/
def blkTxCount (b : List Nat) : Nat := readBE2 b 69

/-- Go `Block.PreviousBlockHash()`: bytes 1..33. -/
def blkPrevBlockHash (b : List Nat) : List Nat := sliceAt b 1 32

/-- Go `Block.MerkleRootHash()`: bytes 33..65. -/
def blkMerkleRootHash (b : List Nat) : List Nat := sliceAt b 33 32

/-- Go `Block.Transaction(idx)`: the slice `b[167+150*idx : 167+150*(idx+1)]`;
`none` models the Go slice panic when the buffer is too short. -/
def blkTransaction? (b : List Nat) (i : Nat) : Option (List Nat) :=
  if 167 + 150 * (i + 1) ≤ b.length then some (sliceAt b (167 + 150 * i) 150) else none

/-- Total variant of `Block.Transaction(idx)` for in-range use. -/
def blkTransactionD (b : List Nat) (i : Nat) : List Nat :=
  sliceAt b (167 + 150 * i) 150

/-- Go `NewBlock()`: 167 zero bytes with version byte set to `Basic (1)`. -/
def NewBlock : List Nat := (List.replicate 167 0).set 0 1

/-- First 32 bytes, zero padded: the value of a fixed 32-byte Go buffer
after `copy(buf, x)` of `x` into it. -/
def to32 (x : List Nat) : List Nat := (x ++ List.replicate 32 0).take 32

/-- One pairing step of the Merkle loop: the 64-byte scratch buffer
`copy(t[:32], h[k1][:]); copy(t[32:], h[k2][:])` hashed with `H`. -/
def hashPair (H : List Nat → List Nat) (x y : List Nat) : List Nat :=
  H (to32 x ++ to32 y)

/-- Step 1 of Go `CalculateMerkleRoot`: hash each transaction in order,
failing with `ErrNonUniqueTrx` when a hash repeats (the Go hash-set `u`
holds exactly the previously appended hashes); `none` models the slice
panic of `Block.Transaction`. -/
def buildLeaves (H : List Nat → List Nat) (b : List Nat) :
    Nat → Nat → List (List Nat) → Option (Except Err (List (List Nat)))
  | i, c, acc =>
    if _h : i < c then
      match blkTransaction? b i with
      | none => none
      | some tx =>
        if H tx ∈ acc then some (.error .nonUniqueTx)
        else buildLeaves H b (i + 1) c (acc ++ [H tx])
    else some (.ok acc)
  termination_by i c _ => c - i

/-- Go `next(count)`: the pair `(nextCount, maxIdx)` of the reduction loop. -/
def next (count : Nat) : Nat × Nat :=
  ((if count > 2 then count + count % 2 else count) / 2, count - 1)

/-- The inner `for i := 0; i < n; i++` loop of step 2: in-place pairing
writes `h[i] = H(h[2i] || h[min(2i+1, m)])` on the current array. -/
def innerLoop (H : List Nat → List Nat) (h : List (List Nat)) (i n m : Nat) :
    List (List Nat) :=
  if i < n then
    innerLoop H (h.set i (hashPair H (h.getD (2 * i) []) (h.getD (min (2 * i + 1) m) [])))
      (i + 1) n m
  else h
  termination_by n - i

/-- The outer `for n, m := next(c); n > 0; n, m = next(n)` loop of step 2. -/
def step2go (H : List Nat → List Nat) (h : List (List Nat)) (n m : Nat) :
    List (List Nat) :=
  if _hn : n > 0 then step2go H (innerLoop H h 0 n m) (next n).1 (next n).2 else h
  termination_by n
  decreasing_by simp only [next]; split <;> omega

/-- Go `CalculateMerkleRoot(b)` (identical in both block revisions): build
the leaf hashes with uniqueness detection, reduce level by level, then copy
`h[0]` into the 32-byte result — `none` models the `h[0]` panic on an empty
hash array (transaction count 0) and the transaction-slice panics. -/
def CalculateMerkleRoot (H : List Nat → List Nat) (b : List Nat) :
    Option (Except Err (List Nat)) :=
  let c := blkTxCount b
  match buildLeaves H b 0 c [] with
  | none => none
  | some (.error e) => some (.error e)
  | some (.ok h) =>
    match (step2go H h (next c).1 (next c).2)[0]? with
    | none => none
    | some r => some (.ok (to32 r))

/-! ## Block predicates (live revision) and the composed block verifier -/

/-- Go `lengthIsValid(b)` (live revision): at least header + one
transaction, and exactly `HeaderLength + TxLength * TxCount`. -/
def lengthIsValid (b : List Nat) : Option Err :=
  if b.length < 167 + 150 then some .invalidLength
  else if b.length ≠ 167 + 150 * blkTxCount b then some .invalidLength
  else none

/-- Go `prevBlockHashIsNull` (live revision): the 32 previous-hash bytes
must all be zero. -/
def prevBlockHashIsNull (b : List Nat) : Option Err :=
  if blkPrevBlockHash b ≠ List.replicate 32 0 then some .invalidPrevHash else none

/-- Go `prevBlockHashNotNull` (live revision). -/
def prevBlockHashNotNull (b : List Nat) : Option Err :=
  if blkPrevBlockHash b = List.replicate 32 0 then some .invalidPrevHash else none

/-- Number of iterations of the scan
`for i := HeaderLength; i < len(b); i += TxLength`: the positions visited
are `167 + 150*k` for `k` below this count. -/
def txScanCount (b : List Nat) : Nat := (b.length - 167 + 149) / 150

/-- Go `allTransactionAreGenesis` (live revision): the byte-position loop
fails (with the single kind `ErrInvalidTx`) as soon as some visited version
byte differs from `Genesis (0)`; first-error and any-error coincide because
only one error kind is produced. -/
def allTransactionAreGenesis (b : List Nat) : Option Err :=
  if (List.range (txScanCount b)).any (fun k => decide (b.getD (167 + 150 * k) 0 ≠ 0)) then
    some .invalidTx
  else none

/-- Go `allTransactionNotGenesis` (live revision): fails when some visited
version byte equals `Genesis (0)`. -/
def allTransactionNotGenesis (b : List Nat) : Option Err :=
  if (List.range (txScanCount b)).any (fun k => decide (b.getD (167 + 150 * k) 0 = 0)) then
    some .invalidTx
  else none

/-- Go `merkleRootIsValid` (live revision): recompute the Merkle root,
propagate its error, else compare with header bytes 33..65.  The outer
`Option` propagates the modelled panic of `CalculateMerkleRoot`. -/
def merkleRootIsValid (H : List Nat → List Nat) (b : List Nat) : Option (Option Err) :=
  match CalculateMerkleRoot H b with
  | none => none
  | some (.error e) => some (some e)
  | some (.ok mrk) =>
    if blkMerkleRootHash b ≠ mrk then some (some .invalidMerkle) else some none

/-- Go `allTransactionsAreValid` (live revision): every embedded
transaction must pass `VerifyTransaction` (the fan-out is read-only and
any-failure, so it is order-insensitive). -/
def allTransactionsAreValid (V : List Nat → List Nat → List Nat → Bool) (b : List Nat) :
    Option Err :=
  if (List.range (blkTxCount b)).any
      (fun i => (TxA.VerifyTransaction V (blkTransactionD b i)).isSome) then
    some .invalidTx
  else none

/-- Sequencing for the block verifier: stop at a panic (`none`) or at the
first error. -/
def bAndThen (r : Option (Option Err)) (f : Unit → Option (Option Err)) :
    Option (Option Err) :=
  match r with
  | none => none
  | some (some e) => some (some e)
  | some none => f ()

/-- Lift an ordinary predicate into the panic-aware result type. -/
def liftP (p : List Nat → Option Err) (b : List Nat) : Option (Option Err) :=
  some (p b)

/-- Modelled from the spec: the composing `VerifyBlock` of this revision is
not under `src/` (only its predicate combinators in the `runAsserts` file
and its callers in `block_test.go` are), so the composition follows spec
section 4.3 — length, version, the version-gated previous-hash and
transaction-version rules, Merkle root (with duplicate detection), block
signature, then per-transaction verification — over the source-embedded
predicates of the live revision. -/
def VerifyBlockModel (H : List Nat → List Nat) (V : List Nat → List Nat → List Nat → Bool)
    (b : List Nat) : Option (Option Err) :=
  bAndThen (liftP lengthIsValid b) (fun _ =>
  bAndThen (liftP versionIsValid b) (fun _ =>
  bAndThen (liftP (ifVersionIsGenesis [prevBlockHashIsNull, allTransactionAreGenesis]) b)
    (fun _ =>
  bAndThen (liftP (ifVersionIsBasic [prevBlockHashNotNull, allTransactionNotGenesis]) b)
    (fun _ =>
  bAndThen (merkleRootIsValid H b) (fun _ =>
  bAndThen (liftP (signatureIsValid V) b) (fun _ =>
  liftP (allTransactionsAreValid V) b))))))

theorem buildLeaves_ne_none (H : List Nat → List Nat) (b : List Nat) (c : Nat)
    (hLen : 167 + 150 * c ≤ b.length) :
    ∀ i acc, buildLeaves H b i c acc ≠ none := by
  have key : ∀ k i acc, c - i = k → buildLeaves H b i c acc ≠ none := by
    intro k
    induction k with
    | zero =>
      intro i acc hk
      rw [buildLeaves, dif_neg (by omega)]
      simp
    | succ n ih =>
      intro i acc hk
      have hic : i < c := by omega
      rw [buildLeaves, dif_pos hic, blkTransaction?, if_pos (by omega)]
      by_cases hmem : H (sliceAt b (167 + 150 * i) 150) ∈ acc
      · simp [hmem]
      · simp only [hmem, if_neg, ite_false]
        exact ih _ _ (by omega)
  intro i acc
  exact key (c - i) i acc rfl

theorem buildLeaves_ok_length (H : List Nat → List Nat) (b : List Nat) (c : Nat) :
    ∀ i acc res, buildLeaves H b i c acc = some (.ok res) →
      res.length = acc.length + (c - i) := by
  have key : ∀ k i acc res, c - i = k → buildLeaves H b i c acc = some (.ok res) →
      res.length = acc.length + (c - i) := by
    intro k
    induction k with
    | zero =>
      intro i acc res hk hres
      rw [buildLeaves, dif_neg (by omega)] at hres
      simp only [Option.some.injEq, Except.ok.injEq] at hres
      rw [hres]
      omega
    | succ n ih =>
      intro i acc res hk hres
      have hic : i < c := by omega
      rw [buildLeaves, dif_pos hic] at hres
      rcases htx : blkTransaction? b i with _ | tx
      · rw [htx] at hres; cases hres
      · rw [htx] at hres
        by_cases hmem : H tx ∈ acc
        · simp [hmem] at hres
        · simp only [hmem, if_neg, ite_false] at hres
          have := ih (i + 1) (acc ++ [H tx]) res (by omega) hres
          simp only [List.length_append, List.length_cons, List.length_nil] at this
          omega
  intro i acc res
  exact key (c - i) i acc res rfl

theorem innerLoop_length (H : List Nat → List Nat) (n m : Nat) :
    ∀ i h, (innerLoop H h i n m).length = h.length := by
  have key : ∀ k i h, n - i = k → (innerLoop H h i n m).length = h.length := by
    intro k
    induction k with
    | zero =>
      intro i h hk
      rw [innerLoop, if_neg (by omega)]
    | succ j ih =>
      intro i h hk
      rw [innerLoop, if_pos (by omega), ih _ _ (by omega), List.length_set]
  intro i h
  exact key (n - i) i h rfl

theorem step2go_length (H : List Nat → List Nat) :
    ∀ n m h, (step2go H h n m).length = h.length := by
  intro n
  induction n using Nat.strong_induction_on with
  | _ n ih =>
    intro m h
    rw [step2go]
    by_cases hn : n > 0
    · rw [dif_pos hn]
      have hlt : (next n).1 < n := by simp only [next]; split <;> omega
      rw [ih _ hlt, innerLoop_length]
    · rw [dif_neg hn]

/-- C10: `CalculateMerkleRoot` is total exactly on blocks with at least one
transaction: with transaction count 0 (as on a freshly created `NewBlock`)
it reads element 0 of the empty hash array — modelled as `none`, the Go
runtime panic — instead of returning a value or an error, and with count at
least 1 (and a matching buffer length) it always returns a value or an
error. -/
theorem c10_merkle_total_iff_nonempty :
    (∀ (H : List Nat → List Nat) (b : List Nat), blkTxCount b = 0 →
        CalculateMerkleRoot H b = none) ∧
    blkTxCount NewBlock = 0 ∧
    (∀ (H : List Nat → List Nat) (b : List Nat),
        b.length = 167 + 150 * blkTxCount b → 1 ≤ blkTxCount b →
        (CalculateMerkleRoot H b).isSome) := by
  refine ⟨?_, by decide, ?_⟩
  · intro H b hc
    have h1 : buildLeaves H b 0 0 [] = some (Except.ok ([] : List (List Nat))) := by
      rw [buildLeaves, dif_neg (by omega)]
    have h2 : step2go H ([] : List (List Nat)) (next 0).1 (next 0).2 = [] := by
      rw [step2go, dif_neg (by decide)]
    simp [CalculateMerkleRoot, hc, h1, h2]
  · intro H b hLen hc
    rcases hres : buildLeaves H b 0 (blkTxCount b) [] with _ | res
    · exact absurd hres (buildLeaves_ne_none H b (blkTxCount b) (by omega) 0 [])
    rcases res with e | leaves
    · simp [CalculateMerkleRoot, hres]
    · have hlen2 : leaves.length = blkTxCount b := by
        have := buildLeaves_ok_length H b (blkTxCount b) 0 [] leaves hres
        simpa using this
      have hstep : 0 < (step2go H leaves (next (blkTxCount b)).1 (next (blkTxCount b)).2).length := by
        rw [step2go_length, hlen2]; omega
      have h0 := List.getElem?_eq_getElem hstep
      simp [CalculateMerkleRoot, hres, h0]

set_option maxRecDepth 40000 in
/-- C10 witness: the panic on the freshly created block, and totality on a
concrete one-transaction block, at a concrete hash function. -/
theorem c10_merkle_total_iff_nonempty_witness :
    CalculateMerkleRoot (fun _ => List.replicate 32 0) NewBlock = none ∧
    (CalculateMerkleRoot (fun _ => List.replicate 32 0)
        ((List.replicate 317 0).set 70 1)).isSome := by
  refine ⟨c10_merkle_total_iff_nonempty.1 _ _ (by decide),
    c10_merkle_total_iff_nonempty.2.2 _ _ (by decide) (by decide)⟩

theorem buildLeaves_dup (H : List Nat → List Nat) (b : List Nat) (c : Nat)
    (hLen : 167 + 150 * c ≤ b.length) :
    ∀ i, i ≤ c →
      (∃ p q, p < q ∧ q < c ∧ i ≤ q ∧
        H (blkTransactionD b p) = H (blkTransactionD b q)) →
      buildLeaves H b i c ((List.range i).map (fun j => H (blkTransactionD b j))) =
        some (.error .nonUniqueTx) := by
  have key : ∀ k i, c - i = k → i ≤ c →
      (∃ p q, p < q ∧ q < c ∧ i ≤ q ∧
        H (blkTransactionD b p) = H (blkTransactionD b q)) →
      buildLeaves H b i c ((List.range i).map (fun j => H (blkTransactionD b j))) =
        some (.error .nonUniqueTx) := by
    intro k
    induction k with
    | zero =>
      intro i hk _ hdup
      obtain ⟨p, q, hpq, hqc, hiq, _⟩ := hdup
      omega
    | succ n ih =>
      intro i hk hic hdup
      obtain ⟨p, q, hpq, hqc, hiq, heq⟩ := hdup
      have hic' : i < c := by omega
      rw [buildLeaves, dif_pos hic', blkTransaction?, if_pos (by omega)]
      have hslice : sliceAt b (167 + 150 * i) 150 = blkTransactionD b i := rfl
      rw [hslice]
      dsimp only
      by_cases hmem : H (blkTransactionD b i) ∈
          (List.range i).map (fun j => H (blkTransactionD b j))
      · rw [if_pos hmem]
      · rw [if_neg hmem]
        have hqi : q ≠ i := by
          intro hqi
          apply hmem
          subst hqi
          rw [← heq]
          exact List.mem_map_of_mem _ (List.mem_range.mpr (by omega))
        have hacc : (List.range i).map (fun j => H (blkTransactionD b j)) ++
            [H (blkTransactionD b i)] =
            (List.range (i + 1)).map (fun j => H (blkTransactionD b j)) := by
          rw [List.range_succ, List.map_append, List.map_cons, List.map_nil]
        rw [hacc]
        exact ih (i + 1) (by omega) (by omega) ⟨p, q, hpq, hqc, by omega, heq⟩
  intro i hic hdup
  exact key (c - i) i rfl hic hdup

theorem lengthIsValid_eq (b : List Nat) (h : lengthIsValid b = none) :
    317 ≤ b.length ∧ b.length = 167 + 150 * blkTxCount b := by
  unfold lengthIsValid at h
  split_ifs at h with h1 h2
  exact ⟨by omega, by omega⟩

/-- C7: a block holding two byte-identical transactions makes
`CalculateMerkleRoot` fail with the non-unique-transaction error (the
repeat is caught while building the leaves), and the composed block
verifier — whose earlier length, version, previous-hash and
transaction-version checks pass — returns the same error. -/
theorem c7_duplicate_tx (H : List Nat → List Nat) (V : List Nat → List Nat → List Nat → Bool)
    (b : List Nat) (i j : Nat)
    (hlen : lengthIsValid b = none)
    (hij : i < j) (hj : j < blkTxCount b)
    (heq : blkTransactionD b i = blkTransactionD b j) :
    CalculateMerkleRoot H b = some (.error Err.nonUniqueTx) ∧
    (versionIsValid b = none →
      ifVersionIsGenesis [prevBlockHashIsNull, allTransactionAreGenesis] b = none →
      ifVersionIsBasic [prevBlockHashNotNull, allTransactionNotGenesis] b = none →
      VerifyBlockModel H V b = some (some Err.nonUniqueTx)) := by
  obtain ⟨hmin, hexact⟩ := lengthIsValid_eq b hlen
  have hdup := buildLeaves_dup H b (blkTxCount b) (by omega) 0 (by omega)
    ⟨i, j, hij, hj, by omega, by rw [heq]⟩
  simp only [List.range_zero, List.map_nil] at hdup
  have hcalc : CalculateMerkleRoot H b = some (.error Err.nonUniqueTx) := by
    simp [CalculateMerkleRoot, hdup]
  refine ⟨hcalc, fun hver hgen hbas => ?_⟩
  simp [VerifyBlockModel, bAndThen, liftP, hlen, hver, hgen, hbas, merkleRootIsValid, hcalc]

/-- A concrete 467-byte Basic block with a nonzero previous hash holding
two identical Basic transactions. -/
def cexDupBlock : List Nat :=
  (((((List.replicate 467 0).set 0 1).set 1 1).set 70 2).set 167 1).set 317 1

set_option maxRecDepth 100000 in
/-- C7 witness: the theorem applied to the concrete duplicate-transaction
block. -/
theorem c7_duplicate_tx_witness :
    CalculateMerkleRoot (fun _ => []) cexDupBlock = some (.error Err.nonUniqueTx) ∧
    VerifyBlockModel (fun _ => []) (fun _ _ _ => false) cexDupBlock =
      some (some Err.nonUniqueTx) := by
  have h := c7_duplicate_tx (fun _ => []) (fun _ _ _ => false) cexDupBlock 0 1
    (by decide) (by decide) (by decide) (by decide)
  exact ⟨h.1, h.2 (by decide) (by decide) (by decide)⟩

theorem getD_blkTransactionD_zero (b : List Nat) (k : Nat) :
    txVersion (blkTransactionD b k) = b.getD (167 + 150 * k) 0 := by
  simp [txVersion, blkTransactionD, sliceAt, List.getD_eq_getElem?_getD,
    List.getElem?_take, List.getElem?_drop]

theorem txScanCount_eq (b : List Nat) (h : b.length = 167 + 150 * blkTxCount b) :
    txScanCount b = blkTxCount b := by
  unfold txScanCount
  omega

theorem versionIsValid_block (b : List Nat) (hmin : 317 ≤ b.length)
    (hv : b.getD 0 0 ≤ 1) : versionIsValid b = none := by
  unfold versionIsValid blkVersionIsValid
  rw [if_neg (by omega), if_neg (by omega), if_neg (by omega)]

theorem runAsserts_cons_err (b : List Nat) (f : List Nat → Option Err)
    (fs : List (List Nat → Option Err)) (e : Err) (h : f b = some e) :
    runAsserts b (f :: fs) = some e := by
  rw [runAsserts, h]

theorem runAsserts_cons_ok (b : List Nat) (f : List Nat → Option Err)
    (fs : List (List Nat → Option Err)) (h : f b = none) :
    runAsserts b (f :: fs) = runAsserts b fs := by
  rw [runAsserts, h]

/-- C4: for a block whose length check passes, the Genesis rules demand an
all-zero previous hash (else `InvalidPrevHash`) and all-Genesis transaction
version bytes (else `InvalidTransaction`), and the Basic rules demand a
nonzero previous hash and no Genesis transaction, with the previous-hash
rule checked first. -/
theorem c4_block_version_rules (H : List Nat → List Nat)
    (V : List Nat → List Nat → List Nat → Bool) (b : List Nat)
    (hlen : lengthIsValid b = none) :
    (b.getD 0 0 = 0 →
      (blkPrevBlockHash b ≠ List.replicate 32 0 →
        VerifyBlockModel H V b = some (some Err.invalidPrevHash)) ∧
      (blkPrevBlockHash b = List.replicate 32 0 →
        (∃ k, k < blkTxCount b ∧ txVersion (blkTransactionD b k) ≠ 0) →
        VerifyBlockModel H V b = some (some Err.invalidTx))) ∧
    (b.getD 0 0 = 1 →
      (blkPrevBlockHash b = List.replicate 32 0 →
        VerifyBlockModel H V b = some (some Err.invalidPrevHash)) ∧
      (blkPrevBlockHash b ≠ List.replicate 32 0 →
        (∃ k, k < blkTxCount b ∧ txVersion (blkTransactionD b k) = 0) →
        VerifyBlockModel H V b = some (some Err.invalidTx))) := by
  obtain ⟨hmin, hexact⟩ := lengthIsValid_eq b hlen
  have hscan := txScanCount_eq b hexact
  constructor
  · intro hv0
    have hver := versionIsValid_block b hmin (by omega)
    constructor
    · intro hprev
      have hgate : ifVersionIsGenesis [prevBlockHashIsNull, allTransactionAreGenesis] b =
          some Err.invalidPrevHash := by
        rw [ifVersionIsGenesis, if_pos hv0,
          runAsserts_cons_err _ _ _ _ (by rw [prevBlockHashIsNull, if_pos hprev])]
      simp only [VerifyBlockModel, liftP, hlen, hver, hgate, bAndThen]
    · intro hprev hex
      obtain ⟨k, hk, hne⟩ := hex
      rw [getD_blkTransactionD_zero] at hne
      have hany : (List.range (txScanCount b)).any
          (fun k => decide (b.getD (167 + 150 * k) 0 ≠ 0)) = true := by
        rw [List.any_eq_true]
        exact ⟨k, List.mem_range.mpr (by omega), by simpa using hne⟩
      have hgate : ifVersionIsGenesis [prevBlockHashIsNull, allTransactionAreGenesis] b =
          some Err.invalidTx := by
        rw [ifVersionIsGenesis, if_pos hv0,
          runAsserts_cons_ok _ _ _ (by rw [prevBlockHashIsNull, if_neg (not_not_intro hprev)]),
          runAsserts_cons_err _ _ _ _ (by rw [allTransactionAreGenesis, if_pos hany])]
      simp only [VerifyBlockModel, liftP, hlen, hver, hgate, bAndThen]
  · intro hv1
    have hver := versionIsValid_block b hmin (by omega)
    have hgen : ifVersionIsGenesis [prevBlockHashIsNull, allTransactionAreGenesis] b = none := by
      rw [ifVersionIsGenesis, if_neg (by omega)]
    constructor
    · intro hprev
      have hgate : ifVersionIsBasic [prevBlockHashNotNull, allTransactionNotGenesis] b =
          some Err.invalidPrevHash := by
        rw [ifVersionIsBasic, if_pos hv1,
          runAsserts_cons_err _ _ _ _ (by rw [prevBlockHashNotNull, if_pos hprev])]
      simp only [VerifyBlockModel, liftP, hlen, hver, hgen, hgate, bAndThen]
    · intro hprev hex
      obtain ⟨k, hk, hz⟩ := hex
      rw [getD_blkTransactionD_zero] at hz
      have hany : (List.range (txScanCount b)).any
          (fun k => decide (b.getD (167 + 150 * k) 0 = 0)) = true := by
        rw [List.any_eq_true]
        exact ⟨k, List.mem_range.mpr (by omega), by simpa using hz⟩
      have hgate : ifVersionIsBasic [prevBlockHashNotNull, allTransactionNotGenesis] b =
          some Err.invalidTx := by
        rw [ifVersionIsBasic, if_pos hv1,
          runAsserts_cons_ok _ _ _ (by rw [prevBlockHashNotNull, if_neg hprev]),
          runAsserts_cons_err _ _ _ _ (by rw [allTransactionNotGenesis, if_pos hany])]
      simp only [VerifyBlockModel, liftP, hlen, hver, hgen, hgate, bAndThen]

set_option maxRecDepth 100000 in
/-- C4 witness: a concrete 317-byte Genesis block with a nonzero previous
hash fails with `InvalidPrevHash`. -/
theorem c4_block_version_rules_witness :
    VerifyBlockModel (fun _ => []) (fun _ _ _ => false)
      (((List.replicate 317 0).set 1 1).set 70 1) = some (some Err.invalidPrevHash) :=
  (((c4_block_version_rules (fun _ => []) (fun _ _ _ => false)
      (((List.replicate 317 0).set 1 1).set 70 1) (by decide)).1 (by decide)).1 (by decide))

/-! ## C8: the Merkle reduction against the spec's level-by-level tree -/

/-- The leaf hashes `h[i] = H(tx_i bytes)` in transaction order. -/
def leafHashes (H : List Nat → List Nat) (b : List Nat) (k : Nat) : List (List Nat) :=
  (List.range k).map (fun j => H (blkTransactionD b j))

/-- Reference definition following the spec's words (section 4.3.3): one
reduction level maps a row of hashes to `ceil(n/2)` pair hashes
`H(l[2i] || l[min(2i+1, n-1)])`, duplicating the terminal hash at odd
widths. -/
def merkleLevelSpec (H : List Nat → List Nat) (l : List (List Nat)) : List (List Nat) :=
  (List.range ((l.length + l.length % 2) / 2)).map
    (fun i => H (l.getD (2 * i) [] ++ l.getD (min (2 * i + 1) (l.length - 1)) []))

theorem merkleLevelSpec_length (H : List Nat → List Nat) (l : List (List Nat)) :
    (merkleLevelSpec H l).length = (l.length + l.length % 2) / 2 := by
  simp [merkleLevelSpec]

/-- Reference definition following the spec's words: reduce level by level
until one hash remains; that hash is the root (a single leaf is its own
root). -/
def merkleRootSpec (H : List Nat → List Nat) (l : List (List Nat)) : List Nat :=
  if _h : l.length ≤ 1 then l.headD []
  else merkleRootSpec H (merkleLevelSpec H l)
  termination_by l.length
  decreasing_by rw [merkleLevelSpec_length]; omega

theorem getElem?_range_map (f : Nat → List Nat) (n i : Nat) :
    ((List.range n).map f)[i]? = if i < n then some (f i) else none := by
  rcases Nat.lt_or_ge i n with h | h
  · rw [if_pos h, List.getElem?_map, List.getElem?_range h]; rfl
  · rw [if_neg (by omega), List.getElem?_map, List.getElem?_eq_none (by simpa using h)]; rfl

theorem buildLeaves_distinct (H : List Nat → List Nat) (b : List Nat) (c : Nat)
    (hLen : 167 + 150 * c ≤ b.length)
    (hdist : ∀ p q, p < q → q < c →
      H (blkTransactionD b p) ≠ H (blkTransactionD b q)) :
    ∀ i, i ≤ c → buildLeaves H b i c (leafHashes H b i) = some (.ok (leafHashes H b c)) := by
  have key : ∀ k i, c - i = k → i ≤ c →
      buildLeaves H b i c (leafHashes H b i) = some (.ok (leafHashes H b c)) := by
    intro k
    induction k with
    | zero =>
      intro i hk hic
      have : i = c := by omega
      subst this
      rw [buildLeaves, dif_neg (by omega)]
    | succ nn ih =>
      intro i hk hic
      have hic' : i < c := by omega
      rw [buildLeaves, dif_pos hic', blkTransaction?, if_pos (by omega)]
      have hslice : sliceAt b (167 + 150 * i) 150 = blkTransactionD b i := rfl
      rw [hslice]
      dsimp only
      have hmem : H (blkTransactionD b i) ∉ leafHashes H b i := by
        intro hmem
        rw [leafHashes, List.mem_map] at hmem
        obtain ⟨j, hj, hjeq⟩ := hmem
        exact hdist j i (List.mem_range.mp hj) hic' hjeq
      rw [if_neg hmem]
      have hacc : leafHashes H b i ++ [H (blkTransactionD b i)] = leafHashes H b (i + 1) := by
        rw [leafHashes, leafHashes, List.range_succ, List.map_append, List.map_cons,
          List.map_nil]
      rw [hacc]
      exact ih (i + 1) (by omega) (by omega)
  intro i hic
  exact key (c - i) i rfl hic

theorem innerLoop_spec (H : List Nat → List Nat) (h0 : List (List Nat)) (n m : Nat)
    (hnm : n ≤ m + 1) (hm : m + 1 ≤ h0.length) :
    ∀ i h, i ≤ n → h.length = h0.length →
      (∀ j, j < i → h[j]? =
        some (hashPair H (h0.getD (2 * j) []) (h0.getD (min (2 * j + 1) m) []))) →
      (∀ j, i ≤ j → h[j]? = h0[j]?) →
      (∀ j, j < n → (innerLoop H h i n m)[j]? =
          some (hashPair H (h0.getD (2 * j) []) (h0.getD (min (2 * j + 1) m) []))) ∧
      (∀ j, n ≤ j → (innerLoop H h i n m)[j]? = h0[j]?) := by
  have key : ∀ k i h, n - i = k → i ≤ n → h.length = h0.length →
      (∀ j, j < i → h[j]? =
        some (hashPair H (h0.getD (2 * j) []) (h0.getD (min (2 * j + 1) m) []))) →
      (∀ j, i ≤ j → h[j]? = h0[j]?) →
      (∀ j, j < n → (innerLoop H h i n m)[j]? =
          some (hashPair H (h0.getD (2 * j) []) (h0.getD (min (2 * j + 1) m) []))) ∧
      (∀ j, n ≤ j → (innerLoop H h i n m)[j]? = h0[j]?) := by
    intro k
    induction k with
    | zero =>
      intro i h hk hin hlen inv1 inv2
      rw [innerLoop, if_neg (by omega)]
      exact ⟨fun j hj => inv1 j (by omega), fun j hj => inv2 j (by omega)⟩
    | succ kk ih =>
      intro i h hk hin hlen inv1 inv2
      have hi : i < n := by omega
      rw [innerLoop, if_pos hi]
      have hr1 : h.getD (2 * i) [] = h0.getD (2 * i) [] := by
        rw [List.getD_eq_getElem?_getD, List.getD_eq_getElem?_getD, inv2 (2 * i) (by omega)]
      have hr2 : h.getD (min (2 * i + 1) m) [] = h0.getD (min (2 * i + 1) m) [] := by
        rw [List.getD_eq_getElem?_getD, List.getD_eq_getElem?_getD,
          inv2 (min (2 * i + 1) m) (by omega)]
      rw [hr1, hr2]
      apply ih (i + 1) _ (by omega) (by omega) (by rw [List.length_set, hlen])
      · intro j hj
        rcases Nat.lt_or_ge j i with hji | hji
        · rw [List.getElem?_set_ne (by omega)]
          exact inv1 j hji
        · have : j = i := by omega
          subst this
          exact List.getElem?_set_self (by omega)
      · intro j hj
        rw [List.getElem?_set_ne (by omega)]
        exact inv2 j (by omega)
  intro i h hin hlen inv1 inv2
  exact key (n - i) i h rfl hin hlen inv1 inv2

theorem to32_of_length (x : List Nat) (hx : x.length = 32) : to32 x = x := by
  rw [to32, ← hx, List.take_left]

theorem hashPair_eq_append (H : List Nat → List Nat) (x y : List Nat)
    (hx : x.length = 32) (hy : y.length = 32) : hashPair H x y = H (x ++ y) := by
  rw [hashPair, to32_of_length x hx, to32_of_length y hy]

theorem getD_mem (l : List (List Nat)) (k : Nat) (hk : k < l.length) :
    l.getD k [] ∈ l := by
  rw [List.getD_eq_getElem?_getD, List.getElem?_eq_getElem hk]
  exact List.getElem_mem hk

theorem getD_take_of_lt (l : List (List Nat)) (nn k : Nat) (hk : k < nn) :
    (l.take nn).getD k [] = l.getD k [] := by
  rw [List.getD_eq_getElem?_getD, List.getD_eq_getElem?_getD, List.getElem?_take, if_pos hk]

theorem step2go_spec (H : List Nat → List Nat) (HLen : ∀ x, (H x).length = 32) :
    ∀ cnt h0, 1 ≤ cnt → cnt ≤ h0.length → (∀ x ∈ h0, x.length = 32) →
      (step2go H h0 (next cnt).1 (next cnt).2)[0]? =
        some (merkleRootSpec H (h0.take cnt)) := by
  intro cnt
  induction cnt using Nat.strong_induction_on with
  | _ cnt ih =>
    intro h0 hc hch h032
    rcases Nat.lt_or_ge cnt 2 with hcnt1 | hcnt2
    · have hcnt : cnt = 1 := by omega
      subst hcnt
      rw [step2go, dif_neg (by decide)]
      rcases h0 with _ | ⟨x, rest⟩
      · simp at hch
      · rw [merkleRootSpec, dif_pos (by simp)]
        simp
    · have hn : (next cnt).1 = (cnt + cnt % 2) / 2 := by
        simp only [next]
        split <;> omega
      have hm : (next cnt).2 = cnt - 1 := rfl
      have hnpos : 0 < (next cnt).1 := by omega
      have hnlt : (next cnt).1 < cnt := by omega
      have hnm : (next cnt).1 ≤ (next cnt).2 + 1 := by omega
      have hmlen : (next cnt).2 + 1 ≤ h0.length := by omega
      rw [step2go, dif_pos hnpos]
      obtain ⟨spec1, spec2⟩ := innerLoop_spec H h0 (next cnt).1 (next cnt).2 hnm hmlen 0 h0
        (by omega) rfl (fun j hj => absurd hj (by omega)) (fun j _ => rfl)
      have hlen1 : (innerLoop H h0 0 (next cnt).1 (next cnt).2).length = h0.length :=
        innerLoop_length H _ _ _ _
      have helem : ∀ x ∈ innerLoop H h0 0 (next cnt).1 (next cnt).2, x.length = 32 := by
        intro x hx
        obtain ⟨j, hjlt, hjx⟩ := List.mem_iff_getElem.mp hx
        have hjs : (innerLoop H h0 0 (next cnt).1 (next cnt).2)[j]? = some x := by
          rw [List.getElem?_eq_getElem hjlt, hjx]
        rcases Nat.lt_or_ge j (next cnt).1 with hjn | hjn
        · rw [spec1 j hjn] at hjs
          obtain hx' := Option.some.inj hjs
          rw [← hx', hashPair]
          exact HLen _
        · rw [spec2 j hjn] at hjs
          exact h032 x (List.getElem?_mem hjs)
      have htake : (innerLoop H h0 0 (next cnt).1 (next cnt).2).take (next cnt).1 =
          merkleLevelSpec H (h0.take cnt) := by
        have hcntlen : (h0.take cnt).length = cnt := by
          rw [List.length_take]
          omega
        apply List.ext_getElem?
        intro j
        rw [List.getElem?_take, merkleLevelSpec, hcntlen, getElem?_range_map]
        have hrange : (cnt + cnt % 2) / 2 = (next cnt).1 := by omega
        rw [hrange]
        rcases Nat.lt_or_ge j (next cnt).1 with hjn | hjn
        · rw [if_pos hjn, if_pos hjn, spec1 j hjn]
          have h2j : 2 * j < cnt := by omega
          have h2j1 : min (2 * j + 1) (next cnt).2 < cnt := by omega
          have ha : (h0.take cnt).getD (2 * j) [] = h0.getD (2 * j) [] :=
            getD_take_of_lt h0 cnt (2 * j) h2j
          have hb : (h0.take cnt).getD (min (2 * j + 1) (cnt - 1)) [] =
              h0.getD (min (2 * j + 1) (next cnt).2) [] := by
            rw [← hm]
            exact getD_take_of_lt h0 cnt _ (by omega)
          rw [ha, hb, hashPair_eq_append]
          · exact h032 _ (getD_mem h0 (2 * j) (by omega))
          · exact h032 _ (getD_mem h0 (min (2 * j + 1) (next cnt).2) (by omega))
        · rw [if_neg (by omega), if_neg (by omega)]
      rw [ih (next cnt).1 hnlt _ hnpos (by omega) helem, htake]
      rw [show merkleRootSpec H (h0.take cnt) =
        merkleRootSpec H (merkleLevelSpec H (h0.take cnt)) from ?_]
      rw [merkleRootSpec, dif_neg]
      rw [List.length_take]
      omega

theorem merkleRootSpec_length (H : List Nat → List Nat) (HLen : ∀ x, (H x).length = 32) :
    ∀ nn l, l.length = nn → 1 ≤ l.length → (∀ x ∈ l, x.length = 32) →
      (merkleRootSpec H l).length = 32 := by
  intro nn
  induction nn using Nat.strong_induction_on with
  | _ nn ih =>
    intro l hln hl h32
    rcases Nat.lt_or_ge l.length 2 with h1 | h2
    · rw [merkleRootSpec, dif_pos (by omega)]
      rcases l with _ | ⟨x, rest⟩
      · simp at hl
      · exact h32 x (List.mem_cons_self x rest)
    · rw [merkleRootSpec, dif_neg (by omega)]
      apply ih ((l.length + l.length % 2) / 2) (by omega)
      · rw [merkleLevelSpec_length]
      · rw [merkleLevelSpec_length]; omega
      · intro x hx
        rw [merkleLevelSpec] at hx
        obtain ⟨j, _, hjx⟩ := List.mem_map.mp hx
        rw [← hjx]
        exact HLen _

/-- C8: `CalculateMerkleRoot`, on a block of hash-distinct transactions,
returns exactly the root of the spec's binary tree whose level-0 leaves are
`H(tx_i)` and whose odd-width levels pair the terminal hash with itself
(`k2 = min(2i+1, lastIndex)`); for a single transaction the root is the
hash of that transaction. -/
theorem c8_merkle_matches_spec (H : List Nat → List Nat)
    (HLen : ∀ x, (H x).length = 32) (b : List Nat)
    (hLen : b.length = 167 + 150 * blkTxCount b) (hc : 1 ≤ blkTxCount b)
    (hdist : ∀ p q, p < q → q < blkTxCount b →
      H (blkTransactionD b p) ≠ H (blkTransactionD b q)) :
    CalculateMerkleRoot H b =
      some (.ok (merkleRootSpec H (leafHashes H b (blkTxCount b)))) ∧
    (blkTxCount b = 1 →
      CalculateMerkleRoot H b = some (.ok (H (blkTransactionD b 0)))) := by
  have hbl := buildLeaves_distinct H b (blkTxCount b) (by omega) hdist 0 (by omega)
  have h0 : leafHashes H b 0 = [] := rfl
  rw [h0] at hbl
  have hlenL : (leafHashes H b (blkTxCount b)).length = blkTxCount b := by
    simp [leafHashes]
  have h32 : ∀ x ∈ leafHashes H b (blkTxCount b), x.length = 32 := by
    intro x hx
    obtain ⟨j, _, hjx⟩ := List.mem_map.mp hx
    rw [← hjx]
    exact HLen _
  have hstep := step2go_spec H HLen (blkTxCount b) (leafHashes H b (blkTxCount b))
    hc (by omega) h32
  rw [show (leafHashes H b (blkTxCount b)).take (blkTxCount b) =
      leafHashes H b (blkTxCount b) from List.take_of_length_le (by omega)] at hstep
  have hroot32 : (merkleRootSpec H (leafHashes H b (blkTxCount b))).length = 32 :=
    merkleRootSpec_length H HLen (blkTxCount b) _ hlenL (by omega) h32
  have hmain : CalculateMerkleRoot H b =
      some (.ok (merkleRootSpec H (leafHashes H b (blkTxCount b)))) := by
    simp only [CalculateMerkleRoot, hbl, hstep]
    rw [to32_of_length _ hroot32]
  refine ⟨hmain, fun hc1 => ?_⟩
  rw [hmain, hc1]
  have h1 : leafHashes H b 1 = [H (blkTransactionD b 0)] := rfl
  rw [h1, merkleRootSpec, dif_pos (by simp)]
  rfl

set_option maxRecDepth 100000 in
/-- C8 witness: on a concrete one-transaction block with a constant
32-byte hash function, the root is the hash of the single transaction. -/
theorem c8_merkle_matches_spec_witness :
    CalculateMerkleRoot (fun _ => List.replicate 32 0) ((List.replicate 317 0).set 70 1) =
      some (.ok (List.replicate 32 0)) :=
  (c8_merkle_matches_spec (fun _ => List.replicate 32 0) (fun _ => by simp)
    ((List.replicate 317 0).set 70 1) (by decide) (by decide)
    (fun p q hpq hq => by
      have h1 : blkTxCount ((List.replicate 317 0).set 70 1) = 1 := by decide
      rw [h1] at hq
      exact absurd hpq (by omega))).2 (by decide)

/-! ## Bech32 codec (address file of the bech32 revision) -/

/-- Go `bech32Alphabet = "qpzry9x8gf2tvdw0s3jn54khce6mua7l"` as bytes. -/
def bech32Alphabet : List Nat :=
  [113, 112, 122, 114, 121, 57, 120, 56, 103, 102, 50, 116, 118, 100, 119, 48,
   115, 51, 106, 110, 53, 52, 107, 104, 99, 101, 54, 109, 117, 97, 55, 108]

/-- Go `bech32Alphabet[v]` (all call sites have `v < 32`). -/
def alphaAt (v : Nat) : Nat := bech32Alphabet.getD v 0

/-- Go `strings.IndexByte(s, c)`: index of the first occurrence, `none` for
the Go result -1. -/
def indexIn (c : Nat) : List Nat → Option Nat
  | [] => none
  | x :: xs => if x = c then some 0 else (indexIn c xs).map (· + 1)

/-- Go `strings.LastIndexByte(s, c)`: index of the last occurrence. -/
def lastIndexByte : List Nat → Nat → Option Nat
  | [], _ => none
  | x :: xs, c =>
    match lastIndexByte xs c with
    | some k => some (k + 1)
    | none => if x = c then some 0 else none

/-- Go `strings.ToLower` restricted to ASCII (every input these claims
quantify over is ASCII). -/
def asciiToLower (s : List Nat) : List Nat :=
  s.map (fun c => if 65 ≤ c ∧ c ≤ 90 then c + 32 else c)

/-- The loop body of Go `bech32Convert8to5`: shift in 8 bits, then run the
`for bits >= 5` emitter.  At every iteration entry `bits < 5`, so after
adding 8 the while body runs exactly once or twice, written out here. -/
def conv85go : List Nat → Nat → Nat → List Nat → List Nat
  | [], acc, bits, res =>
    if bits > 0 then res ++ [alphaAt ((acc <<< (5 - bits)) &&& 31)] else res
  | x :: rest, acc, bits, res =>
    let acc2 := (acc <<< 8) ||| x
    let bits2 := bits + 8
    let res1 := res ++ [alphaAt ((acc2 >>> (bits2 - 5)) &&& 31)]
    if 5 ≤ bits2 - 5 then
      conv85go rest acc2 (bits2 - 10) (res1 ++ [alphaAt ((acc2 >>> (bits2 - 10)) &&& 31)])
    else conv85go rest acc2 (bits2 - 5) res1

/-- Go `bech32Convert8to5(data)`: regroup 8-bit bytes into 5-bit alphabet
characters, padding the tail with zero bits. -/
def bech32Convert8to5 (data : List Nat) : List Nat := conv85go data 0 0 []

/-- The loop body of Go `bech32Convert5to8`: look the character up in the
alphabet, shift in 5 bits, then run the `for bits >= 8` emitter (at most
one byte per character since `bits < 8` at entry); at the end the leftover
bits must be fewer than 5 and zero. -/
def conv58go : List Nat → Nat → Nat → List Nat → Except Err (List Nat)
  | [], acc, bits, out =>
    if 5 ≤ bits ∨ 0 < (acc <<< (8 - bits)) &&& 255 then .error .invalidAddress else .ok out
  | ch :: rest, acc, bits, out =>
    match indexIn ch bech32Alphabet with
    | none => .error .invalidAddress
    | some v =>
      let acc2 := (acc <<< 5) ||| v
      let bits2 := bits + 5
      if 8 ≤ bits2 then conv58go rest acc2 (bits2 - 8) (out ++ [(acc2 >>> (bits2 - 8)) &&& 255])
      else conv58go rest acc2 bits2 out

/-- Go `bech32Convert5to8(data)`. -/
def bech32Convert5to8 (data : List Nat) : Except Err (List Nat) := conv58go data 0 0 []

/-- One step of Go `bech32PolyMod`: shift the 30-bit register and XOR in
the generator constants selected by the former top bits. -/
def polymodStep (chk v : Nat) : Nat :=
  let b := chk >>> 25
  let c0 := ((chk &&& 0x1ffffff) <<< 5) ^^^ v
  let c1 := if b &&& 1 = 1 then c0 ^^^ 0x3b6a57b2 else c0
  let c2 := if (b >>> 1) &&& 1 = 1 then c1 ^^^ 0x26508e6d else c1
  let c3 := if (b >>> 2) &&& 1 = 1 then c2 ^^^ 0x1ea119fa else c2
  let c4 := if (b >>> 3) &&& 1 = 1 then c3 ^^^ 0x3d4233dd else c3
  if (b >>> 4) &&& 1 = 1 then c4 ^^^ 0x2a1462b3 else c4

/-- Go `bech32PolyMod(values)`: fold the step over the values starting from
register 1. -/
def bech32PolyMod (values : List Nat) : Nat := values.foldl polymodStep 1

/-- Go `bech32PrefixExpand(p)`: high 3 bits of each prefix byte, a zero,
then the low 5 bits of each prefix byte. -/
def bech32PfxExpand (p : List Nat) : List Nat :=
  (p.map (fun c => c >>> 5)) ++ [0] ++ (p.map (fun c => c &&& 31))

/-- Go `bech32CreateChecksum(prefix, data)`: polymod over the expanded
prefix, the data symbol values and six zeros, XOR 1, emitted as six
alphabet characters high group first.  (Go feeds `IndexByte`'s -1 for a
character outside the alphabet; every call site passes alphabet
characters, and the model defaults that impossible case to 0.) -/
def bech32CreateChecksum (pfix : List Nat) (data : List Nat) : List Nat :=
  let b := bech32PfxExpand pfix ++ data.map (fun ch => (indexIn ch bech32Alphabet).getD 0)
    ++ [0, 0, 0, 0, 0, 0]
  let p := bech32PolyMod b ^^^ 1
  (List.range 6).map (fun i => alphaAt ((p >>> (5 * (5 - i))) &&& 31))

/-- Go `bech32VerifyChecksum(prefix, data)`: polymod over the expanded
prefix and the symbol values must be 1. -/
def bech32VerifyChecksum (pfix data : List Nat) : Bool :=
  bech32PolyMod (bech32PfxExpand pfix ++ data.map (fun ch => (indexIn ch bech32Alphabet).getD 0))
    = 1

/-- Go `bech32Encode(pfx, pub)`: `pfx + "1" + data + checksum`
(the separator '1' is byte 49). -/
def bech32Encode (pfix : List Nat) (pub : List Nat) : List Nat :=
  let data := bech32Convert8to5 pub
  pfix ++ [49] ++ data ++ bech32CreateChecksum pfix data

/-- Go `bech32Decode(bech)`: length must be 62 or 66; lowercase; split at
the last '1'; convert the data part (everything between the separator and
the final six characters); verify the checksum over everything after the
separator; return the prefix and the first 32 decoded bytes.  The outer
`Option` is `none` where Go panics: a separator past `len-6` makes
`bech[sep+1 : len-6]` an inverted slice, and fewer than 32 decoded bytes
make `data[0:32]` out of range. -/
def bech32Decode (bech : List Nat) : Option (Except Err (List Nat × List Nat)) :=
  if bech.length ≠ 62 ∧ bech.length ≠ 66 then some (.error .invalidAddress)
  else
    let lower := asciiToLower bech
    match lastIndexByte lower 49 with
    | none => some (.error .invalidAddress)
    | some sep =>
      if lower.length - 6 < sep + 1 then none
      else
        match bech32Convert5to8 (sliceAt lower (sep + 1) (lower.length - 6 - (sep + 1))) with
        | .error e => some (.error e)
        | .ok data =>
          if ¬ bech32VerifyChecksum (sliceAt lower 0 sep)
              (sliceAt lower (sep + 1) (lower.length - (sep + 1))) then
            some (.error .invalidAddress)
          else if data.length < 32 then none
          else some (.ok (sliceAt lower 0 sep, data.take 32))

/-- Go `NewAddressFromBech32(s)`: decode, then `NewAddress` with the
decoded prefix and public key written in; `none` where `SetPrefix` would
panic indexing a short non-"genesis" prefix. -/
def NewAddressFromBech32 (s : List Nat) : Option (Except Err (List Nat)) :=
  match bech32Decode s with
  | none => none
  | some (.error e) => some (.error e)
  | some (.ok (pfix, pub)) =>
    if pfix ≠ genesisPfxBytes ∧ pfix.length < 3 then none
    else
      let p := pfxToVersion pfix
      some (.ok (writeBytes ((NewAddress.set 0 p.1).set 1 p.2) 2 (pub.take 32)))

/-- Go `Address.Bech32()`: encode the address's prefix and public key. -/
def addrBech32 (a : List Nat) : List Nat :=
  bech32Encode (versionToPfx (a.getD 0 0) (a.getD 1 0)) (addrPublicKey a)

/-- The repo test vector "geneziz1qqq...qqqwa7qv0" (66 characters,
7-character prefix that is not "genesis", checksum valid for that
prefix). -/
def cexGenezizStr : List Nat :=
  [103, 101, 110, 101, 122, 105, 122, 49] ++ List.replicate 52 113 ++ [119, 97, 55, 113, 118, 48]

/-- The repo test vector "+++1qqq...qqq2trd4a" (62 characters, prefix of
characters outside a-z, checksum valid for that prefix). -/
def cexPlusStr : List Nat :=
  [43, 43, 43, 49] ++ List.replicate 52 113 ++ [50, 116, 114, 100, 52, 97]

/-- The string "ab1" + 53 q's + its valid checksum (62 characters): its
last '1' sits at index 2, not at `len - 59 = 3`. -/
def cexAbStr : List Nat :=
  [97, 98, 49] ++ List.replicate 53 113 ++ [102, 110, 102, 50, 118, 110]

set_option maxRecDepth 100000 in
/-- C6 (code bug, evaluation at the failing inputs): `bech32Decode`
validates neither the position of the last '1' nor the prefix characters,
so it accepts "geneziz..." and "+++..." — both of which the repo's own
`TestBech32Error` expects to fail with `ErrInvalidAddress` — and a
62-character input whose separator sits at index 2 instead of 3. -/
theorem c6_decode_missing_checks :
    bech32Decode cexGenezizStr =
      some (.ok ([103, 101, 110, 101, 122, 105, 122], List.replicate 32 0)) ∧
    bech32Decode cexPlusStr = some (.ok ([43, 43, 43], List.replicate 32 0)) ∧
    bech32Decode cexAbStr = some (.ok ([97, 98], List.replicate 32 0)) ∧
    lastIndexByte cexAbStr 49 = some 2 := by
  refine ⟨rfl, rfl, rfl, by decide⟩

/-! ## Bitwise arithmetic toolkit for the bech32 proofs -/

theorem xor_shiftLeft_distrib (a b k : Nat) : (a ^^^ b) <<< k = (a <<< k) ^^^ (b <<< k) := by
  apply Nat.eq_of_testBit_eq
  intro i
  simp only [Nat.testBit_shiftLeft, Nat.testBit_xor, Bool.and_xor_distrib_left]

theorem xor_shiftRight_distrib (a b k : Nat) : (a ^^^ b) >>> k = (a >>> k) ^^^ (b >>> k) := by
  apply Nat.eq_of_testBit_eq
  intro i
  simp only [Nat.testBit_shiftRight, Nat.testBit_xor]

theorem shiftLeft_or_eq_add (a b k : Nat) (hb : b < 2 ^ k) :
    (a <<< k) ||| b = a * 2 ^ k + b := by
  apply Nat.eq_of_testBit_eq
  intro i
  rw [show a * 2 ^ k + b = 2 ^ k * a + b by ring, Nat.testBit_mul_pow_two_add a hb,
    Nat.testBit_or, Nat.testBit_shiftLeft]
  rcases Nat.lt_or_ge i k with h | h
  · rw [if_pos h, decide_eq_false (by omega), Bool.false_and, Bool.false_or]
  · rw [if_neg (by omega), decide_eq_true (by omega : k ≤ i), Bool.true_and]
    have hbi : b.testBit i = false :=
      Nat.testBit_lt_two_pow (lt_of_lt_of_le hb (Nat.pow_le_pow_right (by omega) h))
    rw [hbi, Bool.or_false]

theorem shiftLeft_xor_eq_add (a b k : Nat) (hb : b < 2 ^ k) :
    (a <<< k) ^^^ b = a * 2 ^ k + b := by
  apply Nat.eq_of_testBit_eq
  intro i
  rw [show a * 2 ^ k + b = 2 ^ k * a + b by ring, Nat.testBit_mul_pow_two_add a hb,
    Nat.testBit_xor, Nat.testBit_shiftLeft]
  rcases Nat.lt_or_ge i k with h | h
  · rw [if_pos h, decide_eq_false (by omega), Bool.false_and, Bool.false_xor]
  · rw [if_neg (by omega), decide_eq_true (by omega : k ≤ i), Bool.true_and]
    have hbi : b.testBit i = false :=
      Nat.testBit_lt_two_pow (lt_of_lt_of_le hb (Nat.pow_le_pow_right (by omega) h))
    rw [hbi, Bool.xor_false]

theorem and_eq_mod (n : Nat) (k : Nat) : n &&& (2 ^ k - 1) = n % 2 ^ k :=
  Nat.and_pow_two_sub_one_eq_mod n k

theorem shiftRight_eq_div (n k : Nat) : n >>> k = n / 2 ^ k :=
  Nat.shiftRight_eq_div_pow n k

/-! ## The polymod checksum identity -/

/-- The combined generator XOR selected by the five low bits of `b`. -/
def genXor (b : Nat) : Nat :=
  (if b &&& 1 = 1 then 0x3b6a57b2 else 0) ^^^
  (if (b >>> 1) &&& 1 = 1 then 0x26508e6d else 0) ^^^
  (if (b >>> 2) &&& 1 = 1 then 0x1ea119fa else 0) ^^^
  (if (b >>> 3) &&& 1 = 1 then 0x3d4233dd else 0) ^^^
  (if (b >>> 4) &&& 1 = 1 then 0x2a1462b3 else 0)

theorem polymodStep_eq (chk v : Nat) :
    polymodStep chk v = (((chk &&& 0x1ffffff) <<< 5) ^^^ v) ^^^ genXor (chk >>> 25) := by
  simp only [polymodStep, genXor]
  split_ifs <;> simp [Nat.xor_assoc]

theorem genXor_linear : ∀ b1 < 32, ∀ b2 < 32, genXor (b1 ^^^ b2) = genXor b1 ^^^ genXor b2 := by
  decide

theorem genXor_lt : ∀ b < 32, genXor b < 2 ^ 30 := by decide

theorem polymodStep_lt (s v : Nat) (hs : s < 2 ^ 30) (hv : v < 2 ^ 30) :
    polymodStep s v < 2 ^ 30 := by
  rw [polymodStep_eq]
  have h1 : (s &&& 0x1ffffff) <<< 5 < 2 ^ 30 := by
    have : s &&& 0x1ffffff ≤ 0x1ffffff := Nat.and_le_right
    rw [Nat.shiftLeft_eq]
    omega
  have h2 : genXor (s >>> 25) < 2 ^ 30 := by
    apply genXor_lt
    rw [shiftRight_eq_div]
    omega
  exact Nat.xor_lt_two_pow (Nat.xor_lt_two_pow h1 hv) h2

theorem polymodStep_linear (s t x y : Nat) (hs : s < 2 ^ 30) (ht : t < 2 ^ 30) :
    polymodStep (s ^^^ t) (x ^^^ y) = polymodStep s x ^^^ polymodStep t y := by
  rw [polymodStep_eq, polymodStep_eq, polymodStep_eq, Nat.and_xor_distrib_right,
    xor_shiftLeft_distrib, xor_shiftRight_distrib,
    genXor_linear (s >>> 25) (by rw [shiftRight_eq_div]; omega)
      (t >>> 25) (by rw [shiftRight_eq_div]; omega)]
  have lcomm : ∀ a b c : Nat, a ^^^ (b ^^^ c) = b ^^^ (a ^^^ c) := fun a b c => by
    rw [← Nat.xor_assoc, Nat.xor_comm a b, Nat.xor_assoc]
  simp only [Nat.xor_assoc]
  simp only [Nat.xor_comm, lcomm]

/-! ## Alphabet facts -/

theorem indexIn_alphaAt : ∀ v < 32, indexIn (alphaAt v) bech32Alphabet = some v := by decide

theorem alphaAt_mem : ∀ v < 32, alphaAt v ∈ bech32Alphabet := by decide

theorem sep_not_mem_alphabet : (49 : Nat) ∉ bech32Alphabet := by decide

theorem alphabet_not_upper : ∀ c ∈ bech32Alphabet, ¬(65 ≤ c ∧ c ≤ 90) := by decide

theorem and31 (n : Nat) : n &&& 31 = n % 32 := Nat.and_pow_two_sub_one_eq_mod n 5

theorem and255 (n : Nat) : n &&& 255 = n % 256 := Nat.and_pow_two_sub_one_eq_mod n 8

theorem indexIn_some_lt (c : Nat) : ∀ (l : List Nat) (k : Nat), indexIn c l = some k → k < l.length
  | [], k => by simp [indexIn]
  | x :: xs, k => by
    rw [indexIn]
    split_ifs with h
    · intro hk
      rw [Option.some.injEq] at hk
      subst hk
      simp
    · cases hix : indexIn c xs with
      | none => simp
      | some j =>
        intro hk
        have hj := indexIn_some_lt c xs j hix
        simp only [Option.map_some', Option.some.injEq] at hk
        subst hk
        simp only [List.length_cons]
        omega

theorem indexIn_getD_lt32 (c : Nat) : (indexIn c bech32Alphabet).getD 0 < 32 := by
  cases hix : indexIn c bech32Alphabet with
  | none => decide
  | some k =>
    have h := indexIn_some_lt c bech32Alphabet k hix
    have hl : bech32Alphabet.length = 32 := by decide
    simp only [Option.getD_some]
    omega

/-! ## Shape lemmas for the 8-to-5 converter -/

theorem conv85go_append (bytes : List Nat) : ∀ acc bits res,
    conv85go bytes acc bits res = res ++ conv85go bytes acc bits [] := by
  induction bytes with
  | nil =>
    intro acc bits res
    rw [conv85go, conv85go]
    split_ifs <;> simp
  | cons x rest ih =>
    intro acc bits res
    rw [conv85go, conv85go]
    split_ifs with h
    · rw [ih _ _ (res ++ _ ++ _), ih _ _ ([] ++ _ ++ _)]
      simp
    · rw [ih _ _ (res ++ _), ih _ _ ([] ++ _)]
      simp

theorem conv85go_length (bytes : List Nat) : ∀ acc bits res, bits < 5 →
    (conv85go bytes acc bits res).length = res.length + (bytes.length * 8 + bits + 4) / 5 := by
  induction bytes with
  | nil =>
    intro acc bits res hb
    rw [conv85go]
    split_ifs with h
    · simp only [List.length_append, List.length_cons, List.length_nil]
      omega
    · simp only [List.length_nil]
      omega
  | cons x rest ih =>
    intro acc bits res hb
    rw [conv85go]
    split_ifs with h
    · rw [ih _ _ _ (by omega)]
      simp only [List.length_append, List.length_cons, List.length_nil]
      omega
    · rw [ih _ _ _ (by omega)]
      simp only [List.length_append, List.length_cons, List.length_nil]
      omega

theorem conv85go_chars (bytes : List Nat) : ∀ acc bits res,
    ∀ c ∈ conv85go bytes acc bits res, c ∈ res ∨ c ∈ bech32Alphabet := by
  induction bytes with
  | nil =>
    intro acc bits res c hc
    rw [conv85go] at hc
    split_ifs at hc with h
    · rcases List.mem_append.1 hc with h1 | h1
      · exact Or.inl h1
      · simp only [List.mem_singleton] at h1
        subst h1
        refine Or.inr (alphaAt_mem _ ?_)
        rw [and31]
        omega
    · exact Or.inl hc
  | cons x rest ih =>
    intro acc bits res c hc
    rw [conv85go] at hc
    split_ifs at hc with h
    · rcases ih _ _ _ c hc with h1 | h1
      · rcases List.mem_append.1 h1 with h2 | h2
        · rcases List.mem_append.1 h2 with h3 | h3
          · exact Or.inl h3
          · simp only [List.mem_singleton] at h3
            subst h3
            refine Or.inr (alphaAt_mem _ ?_)
            rw [and31]
            omega
        · simp only [List.mem_singleton] at h2
          subst h2
          refine Or.inr (alphaAt_mem _ ?_)
          rw [and31]
          omega
      · exact Or.inr h1
    · rcases ih _ _ _ c hc with h1 | h1
      · rcases List.mem_append.1 h1 with h2 | h2
        · exact Or.inl h2
        · simp only [List.mem_singleton] at h2
          subst h2
          refine Or.inr (alphaAt_mem _ ?_)
          rw [and31]
          omega
      · exact Or.inr h1

/-! ## The 5-to-8 converter inverts the 8-to-5 converter

Joint simulation of the two loops: at every point the encoder carry holds
fewer than 5 bits, the decoder carry fewer than 8, their bit counts sum to
0 or 8, and when they sum to 8 the byte they jointly hold is
`accD % 2 ^ bitsD * 2 ^ bitsE + accE % 2 ^ bitsE`. -/

theorem or8 (a b : Nat) (hb : b < 256) : (a <<< 8) ||| b = a * 256 + b := by
  have h := shiftLeft_or_eq_add a b 8 (by omega)
  rw [h]
  norm_num

theorem or5 (a b : Nat) (hb : b < 32) : (a <<< 5) ||| b = a * 32 + b := by
  have h := shiftLeft_or_eq_add a b 5 (by omega)
  rw [h]
  norm_num

theorem conv_roundtrip (bytes : List Nat) : ∀ (h256 : ∀ x ∈ bytes, x < 256)
    (accE bitsE accD bitsD : Nat) (outD : List Nat), bitsE < 5 → bitsD < 8 →
    (bitsD + bitsE = 0 ∨ bitsD + bitsE = 8) →
    conv58go (conv85go bytes accE bitsE []) accD bitsD outD =
      .ok (outD ++
        (if bitsD + bitsE = 8 then [accD % 2 ^ bitsD * 2 ^ bitsE + accE % 2 ^ bitsE] else [])
        ++ bytes) := by
  induction bytes with
  | nil =>
    intro _ accE bitsE accD bitsD outD hE hD hsum
    rcases hsum with h0 | h8
    · have hD0 : bitsD = 0 := by omega
      have hE0 : bitsE = 0 := by omega
      subst hD0; subst hE0
      have hc : ¬(5 ≤ (0:Nat) ∨ 0 < (accD <<< (8 - 0)) &&& 255) := by
        rw [Nat.shiftLeft_eq, and255]
        simp only [Nat.sub_zero]
        omega
      rw [conv85go, if_neg (by omega), conv58go, if_neg hc]
      simp
    · have hE1 : 1 ≤ bitsE := by omega
      interval_cases bitsE
      · have hD7 : bitsD = 7 := by omega
        subst hD7
        have hx : (accE <<< (5 - 1)) &&& 31 < 32 := by rw [and31]; omega
        rw [conv85go, if_pos (by omega)]
        simp only [List.nil_append]
        rw [conv58go, indexIn_alphaAt _ hx]
        dsimp only
        rw [if_pos (by omega), or5 accD _ hx, conv58go]
        simp only [Nat.shiftLeft_eq, shiftRight_eq_div, and31, and255]
        norm_num
        rw [if_neg (by omega)]
        simp only [Except.ok.injEq, List.append_cancel_left_eq, List.cons.injEq, and_true]
        omega
      · have hD6 : bitsD = 6 := by omega
        subst hD6
        have hx : (accE <<< (5 - 2)) &&& 31 < 32 := by rw [and31]; omega
        rw [conv85go, if_pos (by omega)]
        simp only [List.nil_append]
        rw [conv58go, indexIn_alphaAt _ hx]
        dsimp only
        rw [if_pos (by omega), or5 accD _ hx, conv58go]
        simp only [Nat.shiftLeft_eq, shiftRight_eq_div, and31, and255]
        norm_num
        rw [if_neg (by omega)]
        simp only [Except.ok.injEq, List.append_cancel_left_eq, List.cons.injEq, and_true]
        omega
      · have hD5 : bitsD = 5 := by omega
        subst hD5
        have hx : (accE <<< (5 - 3)) &&& 31 < 32 := by rw [and31]; omega
        rw [conv85go, if_pos (by omega)]
        simp only [List.nil_append]
        rw [conv58go, indexIn_alphaAt _ hx]
        dsimp only
        rw [if_pos (by omega), or5 accD _ hx, conv58go]
        simp only [Nat.shiftLeft_eq, shiftRight_eq_div, and31, and255]
        norm_num
        rw [if_neg (by omega)]
        simp only [Except.ok.injEq, List.append_cancel_left_eq, List.cons.injEq, and_true]
        omega
      · have hD4 : bitsD = 4 := by omega
        subst hD4
        have hx : (accE <<< (5 - 4)) &&& 31 < 32 := by rw [and31]; omega
        rw [conv85go, if_pos (by omega)]
        simp only [List.nil_append]
        rw [conv58go, indexIn_alphaAt _ hx]
        dsimp only
        rw [if_pos (by omega), or5 accD _ hx, conv58go]
        simp only [Nat.shiftLeft_eq, shiftRight_eq_div, and31, and255]
        norm_num
        rw [if_neg (by omega)]
        simp only [Except.ok.injEq, List.append_cancel_left_eq, List.cons.injEq, and_true]
        omega
  | cons x rest ih =>
    intro h256 accE bitsE accD bitsD outD hE hD hsum
    have hx : x < 256 := h256 x (List.mem_cons_self x rest)
    have hr : ∀ y ∈ rest, y < 256 := fun y hy => h256 y (List.mem_cons_of_mem x hy)
    interval_cases bitsE
    · have hD0 : bitsD = 0 := by omega
      subst hD0
      rw [conv85go, if_neg (by omega), or8 accE x hx, conv85go_append]
      simp only [List.nil_append, List.cons_append]
      have hv : ((accE * 256 + x) >>> (0 + 8 - 5)) &&& 31 < 32 := by rw [and31]; omega
      rw [conv58go, indexIn_alphaAt _ hv]
      dsimp only
      rw [if_neg (by omega), or5 accD _ hv]
      rw [ih hr]
      · simp only [shiftRight_eq_div, and31, and255]
        norm_num
        all_goals omega
      · omega
      · omega
      · omega
    · have hD7 : bitsD = 7 := by omega
      subst hD7
      rw [conv85go, if_neg (by omega), or8 accE x hx, conv85go_append]
      simp only [List.nil_append, List.cons_append]
      have hv : ((accE * 256 + x) >>> (1 + 8 - 5)) &&& 31 < 32 := by rw [and31]; omega
      rw [conv58go, indexIn_alphaAt _ hv]
      dsimp only
      rw [if_pos (by omega), or5 accD _ hv]
      rw [ih hr]
      · simp only [shiftRight_eq_div, and31, and255]
        norm_num
        all_goals omega
      · omega
      · omega
      · omega
    · have hD6 : bitsD = 6 := by omega
      subst hD6
      rw [conv85go, if_pos (by omega), or8 accE x hx, conv85go_append]
      simp only [List.nil_append, List.cons_append]
      have hv1 : ((accE * 256 + x) >>> (2 + 8 - 5)) &&& 31 < 32 := by rw [and31]; omega
      have hv2 : ((accE * 256 + x) >>> (2 + 8 - 10)) &&& 31 < 32 := by rw [and31]; omega
      rw [conv58go, indexIn_alphaAt _ hv1]
      dsimp only
      rw [if_pos (by omega), or5 accD _ hv1]
      rw [conv58go, indexIn_alphaAt _ hv2]
      dsimp only
      rw [if_pos (by omega), or5 _ _ hv2]
      rw [ih hr]
      · simp only [shiftRight_eq_div, and31, and255]
        norm_num
        all_goals omega
      · omega
      · omega
      · omega
    · have hD5 : bitsD = 5 := by omega
      subst hD5
      rw [conv85go, if_pos (by omega), or8 accE x hx, conv85go_append]
      simp only [List.nil_append, List.cons_append]
      have hv1 : ((accE * 256 + x) >>> (3 + 8 - 5)) &&& 31 < 32 := by rw [and31]; omega
      have hv2 : ((accE * 256 + x) >>> (3 + 8 - 10)) &&& 31 < 32 := by rw [and31]; omega
      rw [conv58go, indexIn_alphaAt _ hv1]
      dsimp only
      rw [if_pos (by omega), or5 accD _ hv1]
      rw [conv58go, indexIn_alphaAt _ hv2]
      dsimp only
      rw [if_neg (by omega), or5 _ _ hv2]
      rw [ih hr]
      · simp only [shiftRight_eq_div, and31, and255]
        norm_num
        all_goals omega
      · omega
      · omega
      · omega
    · have hD4 : bitsD = 4 := by omega
      subst hD4
      rw [conv85go, if_pos (by omega), or8 accE x hx, conv85go_append]
      simp only [List.nil_append, List.cons_append]
      have hv1 : ((accE * 256 + x) >>> (4 + 8 - 5)) &&& 31 < 32 := by rw [and31]; omega
      have hv2 : ((accE * 256 + x) >>> (4 + 8 - 10)) &&& 31 < 32 := by rw [and31]; omega
      rw [conv58go, indexIn_alphaAt _ hv1]
      dsimp only
      rw [if_pos (by omega), or5 accD _ hv1]
      rw [conv58go, indexIn_alphaAt _ hv2]
      dsimp only
      rw [if_neg (by omega), or5 _ _ hv2]
      rw [ih hr]
      · simp only [shiftRight_eq_div, and31, and255]
        norm_num
        all_goals omega
      · omega
      · omega
      · omega

/-! ## Checksum creation verifies -/

theorem convert5to8_inverts (pub : List Nat) (h : ∀ x ∈ pub, x < 256) :
    bech32Convert5to8 (bech32Convert8to5 pub) = .ok pub := by
  rw [bech32Convert8to5, bech32Convert5to8,
    conv_roundtrip pub h 0 0 0 0 [] (by omega) (by omega) (Or.inl rfl)]
  simp

theorem foldl_polymodStep_lt (l : List Nat) : ∀ s, s < 2 ^ 30 → (∀ v ∈ l, v < 2 ^ 30) →
    List.foldl polymodStep s l < 2 ^ 30 := by
  induction l with
  | nil => intro s hs _; simpa using hs
  | cons v t ih =>
    intro s hs hv
    rw [List.foldl_cons]
    exact ih _ (polymodStep_lt s v hs (hv v (List.mem_cons_self v t)))
      (fun y hy => hv y (List.mem_cons_of_mem v hy))

theorem foldl_polymodStep_linear (xs : List Nat) : ∀ (ys : List Nat) (s t : Nat),
    xs.length = ys.length → s < 2 ^ 30 → t < 2 ^ 30 →
    (∀ v ∈ xs, v < 2 ^ 30) → (∀ v ∈ ys, v < 2 ^ 30) →
    List.foldl polymodStep (s ^^^ t) (List.zipWith (fun a b => a ^^^ b) xs ys) =
      List.foldl polymodStep s xs ^^^ List.foldl polymodStep t ys := by
  induction xs with
  | nil =>
    intro ys s t hlen _ _ _ _
    cases ys with
    | nil => simp
    | cons y yt => simp at hlen
  | cons x xt ih =>
    intro ys s t hlen hs ht hxs hys
    cases ys with
    | nil => simp at hlen
    | cons y yt =>
      simp only [List.zipWith_cons_cons, List.foldl_cons]
      rw [polymodStep_linear s t x y hs ht]
      exact ih yt _ _ (by simpa using hlen)
        (polymodStep_lt s x hs (hxs x (List.mem_cons_self x xt)))
        (polymodStep_lt t y ht (hys y (List.mem_cons_self y yt)))
        (fun v hv => hxs v (List.mem_cons_of_mem x hv))
        (fun v hv => hys v (List.mem_cons_of_mem y hv))

theorem and_0x1ffffff (n : Nat) : n &&& 0x1ffffff = n % 0x2000000 :=
  Nat.and_pow_two_sub_one_eq_mod n 25

theorem genXor_zero : genXor 0 = 0 := by decide

theorem polymodStep_small (r v : Nat) (hr : r < 2 ^ 25) (hv : v < 32) :
    polymodStep r v = r * 32 + v := by
  rw [polymodStep_eq]
  have h1 : r >>> 25 = 0 := by rw [shiftRight_eq_div]; omega
  rw [h1, genXor_zero, Nat.xor_zero, and_0x1ffffff, Nat.mod_eq_of_lt (by omega),
    shiftLeft_xor_eq_add r v 5 (by omega)]
  norm_num

theorem foldl_step_digits (c5 c4 c3 c2 c1 c0 : Nat) (h5 : c5 < 32) (h4 : c4 < 32)
    (h3 : c3 < 32) (h2 : c2 < 32) (h1 : c1 < 32) (h0 : c0 < 32) :
    List.foldl polymodStep 0 [c5, c4, c3, c2, c1, c0] =
      c5 * 2 ^ 25 + c4 * 2 ^ 20 + c3 * 2 ^ 15 + c2 * 2 ^ 10 + c1 * 2 ^ 5 + c0 := by
  simp only [List.foldl_cons, List.foldl_nil]
  rw [polymodStep_small 0 c5 (by omega) h5,
      polymodStep_small _ c4 (by omega) h4,
      polymodStep_small _ c3 (by omega) h3,
      polymodStep_small _ c2 (by omega) h2,
      polymodStep_small _ c1 (by omega) h1,
      polymodStep_small _ c0 (by omega) h0]
  omega

theorem createChecksum_explicit (pfix data : List Nat) :
    bech32CreateChecksum pfix data =
      (fun p => [alphaAt (p >>> 25 &&& 31), alphaAt (p >>> 20 &&& 31), alphaAt (p >>> 15 &&& 31),
        alphaAt (p >>> 10 &&& 31), alphaAt (p >>> 5 &&& 31), alphaAt (p >>> 0 &&& 31)])
      (bech32PolyMod (bech32PfxExpand pfix
          ++ data.map (fun ch => (indexIn ch bech32Alphabet).getD 0)
          ++ [0, 0, 0, 0, 0, 0]) ^^^ 1) := by
  rw [bech32CreateChecksum]
  norm_num [List.range_succ]

theorem dv_alphaAt_and31 (w : Nat) :
    (indexIn (alphaAt (w &&& 31)) bech32Alphabet).getD 0 = w &&& 31 := by
  rw [indexIn_alphaAt _ (by rw [and31]; omega)]
  rfl

theorem polymod_selfcheck (B : List Nat) (hB : ∀ v ∈ B, v < 2 ^ 30) :
    List.foldl polymodStep (List.foldl polymodStep 1 B)
      [(bech32PolyMod (B ++ [0, 0, 0, 0, 0, 0]) ^^^ 1) >>> 25 &&& 31,
       (bech32PolyMod (B ++ [0, 0, 0, 0, 0, 0]) ^^^ 1) >>> 20 &&& 31,
       (bech32PolyMod (B ++ [0, 0, 0, 0, 0, 0]) ^^^ 1) >>> 15 &&& 31,
       (bech32PolyMod (B ++ [0, 0, 0, 0, 0, 0]) ^^^ 1) >>> 10 &&& 31,
       (bech32PolyMod (B ++ [0, 0, 0, 0, 0, 0]) ^^^ 1) >>> 5 &&& 31,
       (bech32PolyMod (B ++ [0, 0, 0, 0, 0, 0]) ^^^ 1) >>> 0 &&& 31] = 1 := by
  have hM : List.foldl polymodStep 1 B < 2 ^ 30 :=
    foldl_polymodStep_lt B 1 (by omega) hB
  generalize hQdef : bech32PolyMod (B ++ [0, 0, 0, 0, 0, 0]) = Q
  have hQM : Q = List.foldl polymodStep (List.foldl polymodStep 1 B) [0, 0, 0, 0, 0, 0] := by
    rw [← hQdef, bech32PolyMod, List.foldl_append]
  have hQlt : Q < 2 ^ 30 := by
    rw [hQM]
    exact foldl_polymodStep_lt _ _ hM (by decide)
  have hplt : Q ^^^ 1 < 2 ^ 30 := Nat.xor_lt_two_pow hQlt (by omega)
  have hcv : ∀ v ∈ [(Q ^^^ 1) >>> 25 &&& 31, (Q ^^^ 1) >>> 20 &&& 31, (Q ^^^ 1) >>> 15 &&& 31,
      (Q ^^^ 1) >>> 10 &&& 31, (Q ^^^ 1) >>> 5 &&& 31, (Q ^^^ 1) >>> 0 &&& 31], v < 2 ^ 30 := by
    intro v hv
    simp only [List.mem_cons, List.not_mem_nil, or_false] at hv
    rcases hv with rfl | rfl | rfl | rfl | rfl | rfl <;> (rw [and31]; omega)
  have hlin := foldl_polymodStep_linear [0, 0, 0, 0, 0, 0]
      [(Q ^^^ 1) >>> 25 &&& 31, (Q ^^^ 1) >>> 20 &&& 31, (Q ^^^ 1) >>> 15 &&& 31,
       (Q ^^^ 1) >>> 10 &&& 31, (Q ^^^ 1) >>> 5 &&& 31, (Q ^^^ 1) >>> 0 &&& 31]
      (List.foldl polymodStep 1 B) 0 rfl hM (by omega) (by decide) hcv
  rw [Nat.xor_zero] at hlin
  have hzip : List.zipWith (fun a b => a ^^^ b) ([0, 0, 0, 0, 0, 0] : List Nat)
      [(Q ^^^ 1) >>> 25 &&& 31, (Q ^^^ 1) >>> 20 &&& 31, (Q ^^^ 1) >>> 15 &&& 31,
       (Q ^^^ 1) >>> 10 &&& 31, (Q ^^^ 1) >>> 5 &&& 31, (Q ^^^ 1) >>> 0 &&& 31] =
      [(Q ^^^ 1) >>> 25 &&& 31, (Q ^^^ 1) >>> 20 &&& 31, (Q ^^^ 1) >>> 15 &&& 31,
       (Q ^^^ 1) >>> 10 &&& 31, (Q ^^^ 1) >>> 5 &&& 31, (Q ^^^ 1) >>> 0 &&& 31] := by
    simp only [List.zipWith_cons_cons, List.zipWith_nil_left, Nat.zero_xor]
  rw [hzip] at hlin
  rw [hlin, ← hQM,
    foldl_step_digits _ _ _ _ _ _ (by rw [and31]; omega) (by rw [and31]; omega)
      (by rw [and31]; omega) (by rw [and31]; omega) (by rw [and31]; omega) (by rw [and31]; omega)]
  have hsum : ((Q ^^^ 1) >>> 25 &&& 31) * 2 ^ 25 + ((Q ^^^ 1) >>> 20 &&& 31) * 2 ^ 20
      + ((Q ^^^ 1) >>> 15 &&& 31) * 2 ^ 15 + ((Q ^^^ 1) >>> 10 &&& 31) * 2 ^ 10
      + ((Q ^^^ 1) >>> 5 &&& 31) * 2 ^ 5 + ((Q ^^^ 1) >>> 0 &&& 31) = Q ^^^ 1 := by
    simp only [shiftRight_eq_div, and31]
    omega
  rw [hsum, ← Nat.xor_assoc, Nat.xor_self, Nat.zero_xor]

theorem checksum_verify (pfix data : List Nat) (hp : ∀ c ∈ pfix, c < 256) :
    bech32VerifyChecksum pfix (data ++ bech32CreateChecksum pfix data) = true := by
  have hB : ∀ v ∈ bech32PfxExpand pfix
      ++ data.map (fun ch => (indexIn ch bech32Alphabet).getD 0), v < 2 ^ 30 := by
    intro v hv
    rcases List.mem_append.1 hv with h | h
    · rw [bech32PfxExpand] at h
      rcases List.mem_append.1 h with h2 | h2
      · rcases List.mem_append.1 h2 with h3 | h3
        · obtain ⟨c, hc, rfl⟩ := List.mem_map.1 h3
          have := hp c hc
          rw [shiftRight_eq_div]
          omega
        · simp only [List.mem_singleton] at h3
          omega
      · obtain ⟨c, hc, rfl⟩ := List.mem_map.1 h2
        rw [and31]
        omega
    · obtain ⟨c, hc, rfl⟩ := List.mem_map.1 h
      have := indexIn_getD_lt32 c
      omega
  rw [createChecksum_explicit]
  dsimp only
  rw [bech32VerifyChecksum, decide_eq_true_eq, List.map_append, ← List.append_assoc,
    bech32PolyMod, List.foldl_append]
  simp only [List.map_cons, List.map_nil, dv_alphaAt_and31]
  exact polymod_selfcheck _ hB

/-! ## Decoding an encoded string -/

theorem lastIndexByte_eq_none (c : Nat) : ∀ (l : List Nat), c ∉ l → lastIndexByte l c = none
  | [], _ => rfl
  | x :: xs, h => by
    have h1 := lastIndexByte_eq_none c xs (fun hm => h (List.mem_cons_of_mem x hm))
    rw [lastIndexByte, h1]
    exact if_neg (fun he => h (by rw [← he]; exact List.mem_cons_self x xs))

theorem lastIndexByte_sep (c : Nat) : ∀ (l1 l2 : List Nat), c ∉ l2 →
    lastIndexByte (l1 ++ c :: l2) c = some l1.length
  | [], l2, h => by
    rw [List.nil_append, lastIndexByte, lastIndexByte_eq_none c l2 h]
    simp
  | x :: l1, l2, h => by
    rw [List.cons_append, lastIndexByte, lastIndexByte_sep c l1 l2 h]
    rfl

theorem asciiToLower_eq_self (s : List Nat) (h : ∀ c ∈ s, ¬(65 ≤ c ∧ c ≤ 90)) :
    asciiToLower s = s := by
  rw [asciiToLower]
  conv_rhs => rw [← List.map_id s]
  apply List.map_congr_left
  intro a ha
  rw [if_neg (h a ha)]
  rfl

theorem sliceAt_append_drop (l1 l2 : List Nat) (o n : Nat) (ho : l1.length = o) :
    sliceAt (l1 ++ l2) o n = l2.take n := by
  rw [sliceAt, List.drop_left' ho]

theorem decode_encode (pfix pub : List Nat) (hpub : ∀ x ∈ pub, x < 256)
    (hpublen : pub.length = 32)
    (hpfx256 : ∀ c ∈ pfix, c < 256)
    (hpfxlow : ∀ c ∈ pfix, ¬(65 ≤ c ∧ c ≤ 90))
    (hlen : pfix.length = 3 ∨ pfix.length = 7) :
    bech32Decode (bech32Encode pfix pub) = some (.ok (pfix, pub)) := by
  have hdlen : (bech32Convert8to5 pub).length = 52 := by
    rw [bech32Convert8to5, conv85go_length pub 0 0 [] (by omega), hpublen]
    norm_num
  have hcslen : (bech32CreateChecksum pfix (bech32Convert8to5 pub)).length = 6 := by
    rw [createChecksum_explicit]
    rfl
  have hdchars : ∀ c ∈ bech32Convert8to5 pub, c ∈ bech32Alphabet := by
    intro c hc
    rcases conv85go_chars pub 0 0 [] c hc with h | h
    · exact absurd h (List.not_mem_nil c)
    · exact h
  have hcschars : ∀ c ∈ bech32CreateChecksum pfix (bech32Convert8to5 pub),
      c ∈ bech32Alphabet := by
    intro c hc
    rw [createChecksum_explicit] at hc
    simp only [List.mem_cons, List.not_mem_nil, or_false] at hc
    rcases hc with rfl | rfl | rfl | rfl | rfl | rfl <;>
      exact alphaAt_mem _ (by rw [and31]; omega)
  have h49 : (49 : Nat) ∉ bech32Convert8to5 pub
      ++ bech32CreateChecksum pfix (bech32Convert8to5 pub) := by
    intro h
    rcases List.mem_append.1 h with h2 | h2
    · exact sep_not_mem_alphabet (hdchars _ h2)
    · exact sep_not_mem_alphabet (hcschars _ h2)
  have hnup : ∀ c ∈ pfix ++ [49] ++ bech32Convert8to5 pub
      ++ bech32CreateChecksum pfix (bech32Convert8to5 pub), ¬(65 ≤ c ∧ c ≤ 90) := by
    intro c hc
    rcases List.mem_append.1 hc with h | h
    · rcases List.mem_append.1 h with h2 | h2
      · rcases List.mem_append.1 h2 with h3 | h3
        · exact hpfxlow c h3
        · simp only [List.mem_singleton] at h3
          omega
      · exact alphabet_not_upper c (hdchars c h2)
    · exact alphabet_not_upper c (hcschars c h)
  have hlen62 : (pfix ++ [49] ++ bech32Convert8to5 pub
      ++ bech32CreateChecksum pfix (bech32Convert8to5 pub)).length = pfix.length + 59 := by
    simp only [List.length_append, hdlen, hcslen, List.length_cons, List.length_nil]
  have hsep : lastIndexByte (pfix ++ [49] ++ bech32Convert8to5 pub
      ++ bech32CreateChecksum pfix (bech32Convert8to5 pub)) 49 = some pfix.length := by
    have h1 := lastIndexByte_sep 49 pfix
      (bech32Convert8to5 pub ++ bech32CreateChecksum pfix (bech32Convert8to5 pub)) h49
    simpa [List.append_assoc, List.singleton_append] using h1
  have hslice1 : sliceAt (pfix ++ [49] ++ bech32Convert8to5 pub
        ++ bech32CreateChecksum pfix (bech32Convert8to5 pub)) (pfix.length + 1)
        (pfix.length + 59 - 6 - (pfix.length + 1)) = bech32Convert8to5 pub := by
    have hq : pfix.length + 59 - 6 - (pfix.length + 1) = 52 := by omega
    rw [hq, List.append_assoc (pfix ++ [49]),
      sliceAt_append_drop (pfix ++ [49]) _ (pfix.length + 1) 52 (by simp)]
    exact List.take_left' hdlen
  have hslice2 : sliceAt (pfix ++ [49] ++ bech32Convert8to5 pub
        ++ bech32CreateChecksum pfix (bech32Convert8to5 pub)) (pfix.length + 1)
        (pfix.length + 59 - (pfix.length + 1)) =
      bech32Convert8to5 pub ++ bech32CreateChecksum pfix (bech32Convert8to5 pub) := by
    have hq : pfix.length + 59 - (pfix.length + 1) = 58 := by omega
    rw [hq, List.append_assoc (pfix ++ [49]),
      sliceAt_append_drop (pfix ++ [49]) _ (pfix.length + 1) 58 (by simp)]
    apply List.take_of_length_le
    simp [hdlen, hcslen]
  have hslice0 : sliceAt (pfix ++ [49] ++ bech32Convert8to5 pub
        ++ bech32CreateChecksum pfix (bech32Convert8to5 pub)) 0 pfix.length = pfix := by
    simp only [List.append_assoc]
    rw [sliceAt, List.drop_zero]
    exact List.take_left' rfl
  rw [bech32Encode]
  rw [bech32Decode]
  rw [asciiToLower_eq_self _ hnup]
  rw [if_neg (by rw [hlen62]; rcases hlen with h | h <;> rw [h] <;> norm_num)]
  dsimp only
  rw [hsep]
  dsimp only
  rw [hlen62]
  rw [if_neg (by omega)]
  rw [hslice1, convert5to8_inverts pub hpub]
  dsimp only
  rw [hslice0, hslice2, checksum_verify pfix (bech32Convert8to5 pub) hpfx256]
  rw [if_neg (by simp)]
  rw [if_neg (by omega)]
  rw [List.take_of_length_le (le_of_eq hpublen)]

/-! ## Prefix/version round-trip and address reassembly -/

theorem and3 (n : Nat) : n &&& 3 = n % 4 := Nat.and_pow_two_sub_one_eq_mod n 2

theorem or_shift2 (x y : Nat) (hx : x < 32) (hy : y < 4) :
    (x <<< 2) % 256 ||| y = x * 4 + y := by
  have h : (x <<< 2) % 256 = x <<< 2 := by rw [Nat.shiftLeft_eq]; omega
  rw [h, shiftLeft_or_eq_add x y 2 (by omega)]
  norm_num

theorem or_shift5 (x y : Nat) (hx : x < 32) (hy : y < 32) :
    (x <<< 5) % 256 ||| y = x % 8 * 32 + y := by
  have h : (x <<< 5) % 256 = (x % 8) <<< 5 := by rw [Nat.shiftLeft_eq, Nat.shiftLeft_eq]; omega
  rw [h, shiftLeft_or_eq_add _ y 5 (by omega)]
  norm_num

theorem sub96_add96 (e : Nat) (he : e < 96) : sub96 (e + 96) = e := by
  rw [sub96]
  omega

theorem pfxToVersion_versionToPfx (b0 b1 : Nat) (h0 : b0 < 128) (h1 : b1 < 256)
    (hnz : ¬(b0 = 0 ∧ b1 = 0)) :
    pfxToVersion (versionToPfx b0 b1) = (b0, b1) := by
  rw [versionToPfx, if_neg hnz, pfxToVersion,
    if_neg (by intro h; have h2 := congrArg List.length h; simp [genesisPfxBytes] at h2)]
  simp only [List.getD_cons_zero, List.getD_cons_succ]
  rw [shiftLeft_or_eq_add (b0 &&& 3) (b1 >>> 5) 3 (by rw [shiftRight_eq_div]; omega)]
  rw [sub96_add96 (b0 >>> 2 &&& 31) (by rw [and31]; omega),
      sub96_add96 ((b0 &&& 3) * 2 ^ 3 + b1 >>> 5)
        (by rw [and3, shiftRight_eq_div]; omega),
      sub96_add96 (b1 &&& 31) (by rw [and31]; omega)]
  rw [or_shift2 _ _ (by rw [and31]; omega)
        (by rw [shiftRight_eq_div, and3, shiftRight_eq_div]; omega),
      or_shift5 _ _ (by rw [and3, shiftRight_eq_div]; omega) (by rw [and31]; omega)]
  simp only [Prod.mk.injEq, shiftRight_eq_div, and31, and3]
  omega

theorem writeBytes_cons_succ : ∀ (src : List Nat) (x : Nat) (t : List Nat) (off : Nat),
    writeBytes (x :: t) (off + 1) src = x :: writeBytes t off src
  | [], _, _, _ => rfl
  | s :: ss, x, t, off => by
    rw [writeBytes]
    show writeBytes (x :: t.set off s) (off + 1 + 1) ss = x :: writeBytes t off (s :: ss)
    rw [writeBytes_cons_succ ss x (t.set off s) (off + 1), writeBytes]

theorem writeBytes_zero_full : ∀ (src t : List Nat), src.length = t.length →
    writeBytes t 0 src = src
  | [], t, h => by
    cases t with
    | nil => rfl
    | cons a t' => simp at h
  | s :: ss, t, h => by
    cases t with
    | nil => simp at h
    | cons a t' =>
      rw [writeBytes]
      show writeBytes (s :: t') (0 + 1) ss = s :: ss
      rw [writeBytes_cons_succ ss s t' 0, writeBytes_zero_full ss t' (by simpa using h)]

theorem writeBytes_two (x y : Nat) (t src : List Nat) :
    writeBytes (x :: y :: t) 2 src = x :: y :: writeBytes t 0 src := by
  have h1 := writeBytes_cons_succ src x (y :: t) 1
  have h2 := writeBytes_cons_succ src y t 0
  norm_num at h1 h2
  rw [h1, h2]

theorem newAddress_write (b0 b1 : Nat) (rest : List Nat) (hrlen : rest.length = 32) :
    writeBytes ((NewAddress.set 0 b0).set 1 b1) 2 (rest.take 32) = b0 :: b1 :: rest := by
  rw [List.take_of_length_le (le_of_eq hrlen)]
  rw [show NewAddress = 85 :: 169 :: List.replicate 32 0 by decide]
  simp only [List.set_cons_zero, List.set_cons_succ]
  rw [writeBytes_two, writeBytes_zero_full rest (List.replicate 32 0) (by simp [hrlen])]

/-- C9: for every valid 34-byte address — version 0 (the "genesis" sentinel)
or a version composed of three 5-bit character fields each in 1..26 —
decoding the Bech32 string produced by `Address.Bech32()` with
`NewAddressFromBech32` returns the address byte for byte. -/
theorem c9_bech32_roundtrip (a : List Nat) (hlen : a.length = 34)
    (hbytes : ∀ c ∈ a, c < 256)
    (hval : addrVersion a = 0 ∨
      ∃ c0 c1 c2, 1 ≤ c0 ∧ c0 ≤ 26 ∧ 1 ≤ c1 ∧ c1 ≤ 26 ∧ 1 ≤ c2 ∧ c2 ≤ 26 ∧
        addrVersion a = c0 * 1024 + c1 * 32 + c2) :
    NewAddressFromBech32 (addrBech32 a) = some (.ok a) := by
  rcases a with _ | ⟨b0, a'⟩
  · simp at hlen
  rcases a' with _ | ⟨b1, rest⟩
  · simp at hlen
  have hrlen : rest.length = 32 := by simpa using hlen
  have hb0 : b0 < 256 := hbytes b0 (by simp)
  have hb1 : b1 < 256 := hbytes b1 (by simp)
  have hrest : ∀ x ∈ rest, x < 256 := fun x hx => hbytes x (by simp [hx])
  have hver : addrVersion (b0 :: b1 :: rest) = 256 * b0 + b1 := rfl
  have hpk : addrPublicKey (b0 :: b1 :: rest) = rest := by
    rw [addrPublicKey, sliceAt]
    exact List.take_of_length_le (le_of_eq hrlen)
  rcases hval with hv0 | hvc
  · -- genesis address: version bytes are both zero
    rw [hver] at hv0
    obtain rfl : b0 = 0 := by omega
    obtain rfl : b1 = 0 := by omega
    rw [addrBech32, hpk]
    simp only [List.getD_cons_zero, List.getD_cons_succ]
    rw [show versionToPfx 0 0 = genesisPfxBytes from rfl]
    rw [NewAddressFromBech32,
      decode_encode genesisPfxBytes rest hrest hrlen (by decide) (by decide) (by decide)]
    dsimp only
    rw [if_neg (fun h => h.1 rfl)]
    rw [show pfxToVersion genesisPfxBytes = (0, 0) from rfl]
    dsimp only
    rw [newAddress_write 0 0 rest hrlen]
  · -- three-character prefix
    obtain ⟨c0, c1, c2, h01, h026, h11, h126, h21, h226, hveq⟩ := hvc
    rw [hver] at hveq
    have hb0lt : b0 < 128 := by omega
    have hnz : ¬(b0 = 0 ∧ b1 = 0) := by omega
    have hA : b0 >>> 2 &&& 31 < 32 := by rw [and31]; omega
    have hC : b1 &&& 31 < 32 := by rw [and31]; omega
    have hE : (b0 &&& 3) <<< 3 ||| b1 >>> 5 < 32 := by
      rw [shiftLeft_or_eq_add _ _ 3 (by rw [shiftRight_eq_div]; omega), and3, shiftRight_eq_div]
      omega
    have hp256 : ∀ c ∈ versionToPfx b0 b1, c < 256 := by
      intro c hc
      rw [versionToPfx, if_neg hnz] at hc
      simp only [List.mem_cons, List.not_mem_nil, or_false] at hc
      rcases hc with rfl | rfl | rfl <;> omega
    have hplow : ∀ c ∈ versionToPfx b0 b1, ¬(65 ≤ c ∧ c ≤ 90) := by
      intro c hc
      rw [versionToPfx, if_neg hnz] at hc
      simp only [List.mem_cons, List.not_mem_nil, or_false] at hc
      rcases hc with rfl | rfl | rfl <;> omega
    have hvplen : (versionToPfx b0 b1).length = 3 := by
      rw [versionToPfx, if_neg hnz]
      rfl
    rw [addrBech32, hpk]
    simp only [List.getD_cons_zero, List.getD_cons_succ]
    rw [NewAddressFromBech32,
      decode_encode (versionToPfx b0 b1) rest hrest hrlen hp256 hplow (Or.inl hvplen)]
    dsimp only
    rw [if_neg (fun h => absurd h.2 (by rw [hvplen]; omega))]
    rw [pfxToVersion_versionToPfx b0 b1 hb0lt hb1 hnz]
    dsimp only
    rw [newAddress_write b0 b1 rest hrlen]

/-- C9 witness: the round-trip evaluated on the fresh "umi" address
(version bytes 85, 169 — characters 21 13 9 — and an all-zero key). -/
theorem c9_bech32_roundtrip_witness :
    NewAddressFromBech32 (addrBech32 NewAddress) = some (.ok NewAddress) :=
  c9_bech32_roundtrip NewAddress (by decide) (by decide)
    (Or.inr ⟨21, 13, 9, by decide, by decide, by decide, by decide, by decide, by decide,
      by decide⟩)
